import Mathlib

/-!
# magnetorrenter: the progressive range-streaming engine

A shallow embedding of the Range-header handlers (`stream_handler.go`), the
chunked stream loops and the availability waiter (`torrent_stream_handler.go`),
the playability expression of `GetDownloadingVideoFiles` and the status writes
of the download registry (`simple_torrent_service.go`), followed by theorems
about them.

Conventions.
* Go `string` values are Lean `String`s, processed as their list of characters.
  The handlers only look for the ASCII prefix `bytes=`, the ASCII separator `-`
  and ASCII digits and signs; every other character is treated alike.
* `int64` values are `Int`s; `wrapInt64` is applied where the source computes a
  value that can leave the 64-bit range.
* The Go library functions `strings.TrimPrefix`, `strings.Split` and
  `strconv.ParseInt` are embedded from their Go definitions.
* The stream loops and the waiter compute with unbounded `Int`s: for a range
  accepted by a handler the cursor never exceeds the file size, so no `int64`
  operation of theirs overflows. The integer division of the waiter panics in Go
  for a zero piece length; the theorems about it assume a positive piece length.
* A `Read` returns a byte count `n` and an error; the bytes it delivers are the
  file bytes at the read position. A failing `Write` may have got a leading part
  of its buffer through.
* The registry operations run under one mutex; each is an atomic step on the map,
  and the goroutine of an entry is a process that takes one such step per event
  it selects on.
-/

namespace Magnetorrenter

/-! ## Machine integers -/

/-- Two's-complement wrap-around of an `Int` into the `int64` range. -/
def wrapInt64 (x : Int) : Int := (x + 2 ^ 63) % 2 ^ 64 - 2 ^ 63

/-! ## Go library functions used by the handlers -/

namespace strings

/-- Go `strings.TrimPrefix(s, prefix)`: `s` without the leading `prefix`, or `s`
itself when it does not start with `prefix`. -/
def TrimPrefix (s pre : List Char) : List Char :=
  if pre.isPrefixOf s then s.drop pre.length else s

/-- Go `strings.Split(s, sep)` for a one-character separator: the pieces of `s`
between the occurrences of `sep`; a string without `sep` (the empty string
included) gives one piece. -/
def Split (s : List Char) (sep : Char) : List (List Char) :=
  match s with
  | [] => [[]]
  | c :: cs =>
    if c = sep then [] :: Split cs sep
    else
      match Split cs sep with
      | [] => [[c]]
      | p :: ps => (c :: p) :: ps

end strings

namespace strconv

/-- The largest `uint64`, `maxVal` of `ParseUint` at bit size 64. -/
def maxUint64 : Nat := 2 ^ 64 - 1

/-- The overflow cutoff of `ParseUint` in base 10: `maxUint64/10 + 1`. -/
def cutoff10 : Nat := maxUint64 / 10 + 1

/-- The value of a decimal digit character, `none` for any other character
(base 10: letters and the underscore are syntax errors). -/
def digitVal (c : Char) : Option Nat :=
  if '0' ≤ c ∧ c ≤ '9' then some (c.toNat - '0'.toNat) else none

/-- The digit loop of Go `strconv.ParseUint(s, 10, 64)` with accumulator `n`;
`none` stands for any error (syntax or range). -/
def parseUintLoop (n : Nat) : List Char → Option Nat
  | [] => some n
  | c :: cs =>
    match digitVal c with
    | none => none
    | some d =>
      if n ≥ cutoff10 then none
      else if n * 10 + d > maxUint64 then none
      else parseUintLoop (n * 10 + d) cs

/-- Go `strconv.ParseUint(s, 10, 64)`; `none` stands for `err != nil`. -/
def ParseUint (s : List Char) : Option Nat :=
  match s with
  | [] => none
  | _ => parseUintLoop 0 s

/-- Go `strconv.ParseInt(s, 10, 64)`; `none` stands for `err != nil` (a syntax
error or a value out of the `int64` range). An optional leading sign is
accepted. -/
def ParseInt (s : List Char) : Option Int :=
  match s with
  | [] => none
  | c :: cs =>
    let neg := c = '-'
    let body := if c = '+' ∨ c = '-' then cs else s
    match ParseUint body with
    | none => none
    | some un =>
      if ¬ neg ∧ un ≥ 2 ^ 63 then none
      else if neg ∧ un > 2 ^ 63 then none
      else some (if neg then - (un : Int) else (un : Int))

end strconv

/-- Go `fmt.Sprintf("%d", i)` for an `int64`. -/
def formatInt (i : Int) : String :=
  match i with
  | Int.ofNat n => Nat.repr n
  | Int.negSucc n => "-" ++ Nat.repr (n + 1)

/-! ## Range handlers (`stream_handler.go`) -/

/-- What a range handler did with the response: the status it set, the two
headers it may have set, and the arguments `(start, contentLength)` of the
streaming call it made, if any. -/
structure RangeResponse where
  status : Nat
  contentRange : Option String
  contentLength : Option String
  stream : Option (Int × Int)
  deriving DecidableEq, Repr

/-- The response of every rejecting path: `c.Status(416)` and `return`. -/
def rangeNotSatisfiable : RangeResponse :=
  { status := 416, contentRange := none, contentLength := none, stream := none }

/-- The accepting tail of both handlers: status 206, the two headers and the
streaming call from `start` over `contentLength` bytes. -/
def partialContent (start end_ fileSize : Int) : RangeResponse :=
  let contentLength := wrapInt64 (end_ - start + 1)
  { status := 206,
    contentRange := some ("bytes " ++ formatInt start ++ "-" ++ formatInt end_ ++ "/"
      ++ formatInt fileSize),
    contentLength := some (formatInt contentLength),
    stream := some (start, contentLength) }

/-- The handler `handleRangeRequest` for a local file of size `fileSize`:
`file.Seek(start, 0)` followed by `streamRange(c, file, contentLength)` is
recorded as `stream = some (start, contentLength)`. -/
def handleRangeRequest (fileSize : Int) (rangeHeader : String) : RangeResponse :=
  let ranges := strings.Split (strings.TrimPrefix rangeHeader.data "bytes=".data) '-'
  match ranges with
  | [r0, r1] =>
    -- start position
    let startRes : Option Int :=
      if r0 ≠ [] then
        match strconv.ParseInt r0 with
        | none => none
        | some s => if s < 0 then none else some s
      else some 0
    match startRes with
    | none => rangeNotSatisfiable
    | some start =>
      -- end position
      let end_ : Int :=
        if r1 ≠ [] then
          match strconv.ParseInt r1 with
          | none => wrapInt64 (fileSize - 1)
          | some e => if e ≥ fileSize then wrapInt64 (fileSize - 1) else e
        else wrapInt64 (fileSize - 1)
      -- validation
      if start > end_ ∨ start ≥ fileSize then rangeNotSatisfiable
      else partialContent start end_ fileSize
  | _ => rangeNotSatisfiable

/-- The handler `handleTorrentRangeRequest` for a torrent file of length
`fileSize` (`torrentFile.Length()`): the call
`streamTorrentRange(c, torrentFile, start, contentLength)` is recorded as
`stream = some (start, contentLength)`. -/
def handleTorrentRangeRequest (fileSize : Int) (rangeHeader : String) : RangeResponse :=
  let ranges := strings.Split (strings.TrimPrefix rangeHeader.data "bytes=".data) '-'
  match ranges with
  | [r0, r1] =>
    let startRes : Option Int :=
      if r0 ≠ [] then
        match strconv.ParseInt r0 with
        | none => none
        | some s => if s < 0 then none else some s
      else some 0
    match startRes with
    | none => rangeNotSatisfiable
    | some start =>
      let end_ : Int :=
        if r1 ≠ [] then
          match strconv.ParseInt r1 with
          | none => wrapInt64 (fileSize - 1)
          | some e => if e ≥ fileSize then wrapInt64 (fileSize - 1) else e
        else wrapInt64 (fileSize - 1)
      if start > end_ ∨ start ≥ fileSize then rangeNotSatisfiable
      else partialContent start end_ fileSize
  | _ => rangeNotSatisfiable

/-! ## Playability (`simple_torrent_service.go`) -/

/-- The `playable` expression of `GetDownloadingVideoFiles` for a file with
`downloaded` completed bytes. `progressReached` is the outcome of the `float64`
comparison `progress >= minProgress`, where
`progress = float64(downloaded) / float64(fileSize) * 100` and `minProgress = 5.0`. -/
def playable (downloaded : Int) (progressReached : Bool) : Bool :=
  let minBytes : Int := 5 * 1024 * 1024
  (decide (downloaded ≥ minBytes)) || (progressReached && decide (downloaded > 1024 * 1024))

/-! ## Torrent files and the availability waiter (`torrent_stream_handler.go`)

Time is a clock in milliseconds. The clock advances only in `time.Sleep`, by the
duration slept; every other step takes no time. Piece completion is decided by
the download engine and is read as a function of the clock. -/

/-- What the streaming code reads of a `*torrent.Torrent`: `Info().PieceLength`,
`NumPieces()` and `Piece(i).State().Complete` at a given time. -/
structure Torrent where
  pieceLength : Int
  numPieces : Int
  complete : Nat → Int → Bool

/-- What the streaming code reads of a `*torrent.File`: its torrent, its byte
offset inside the torrent (`Offset()`), its length (`Length()`) and the byte
stored at each offset of the file. -/
structure TorrentFile where
  torrent : Torrent
  offset : Int
  length : Int
  content : Int → Nat

/-- `maxWaitTime := 30 * time.Second`, in milliseconds. -/
def maxWaitTime : Nat := 30000

/-- `checkInterval := 500 * time.Millisecond`, in milliseconds. -/
def checkInterval : Nat := 500

/-- The inner `for pieceIndex := startPiece; pieceIndex <= endPiece; pieceIndex++`
loop of `waitForDataAvailable` at time `now`, started at `pieceIndex` with
`count` indices left up to `endPiece`. The result is `some p` when the loop
leaves with `allAvailable = false` after `SetPriority(PiecePriorityHigh)` on piece
`p`, and `none` when it leaves with `allAvailable` still `true` (the span is
exhausted or `pieceIndex >= NumPieces()`). -/
def scanPieces (t : Torrent) (now : Nat) : Nat → Int → Option Int
  | 0, _ => none
  | count + 1, pieceIndex =>
    if pieceIndex ≥ t.numPieces then none
    else if ¬ t.complete now pieceIndex then some pieceIndex
    else scanPieces t now count (pieceIndex + 1)

/-- What a call of `waitForDataAvailable` did: its return value, the number of
polls (iterations of the outer loop), the number of `time.Sleep` calls, the
pieces `SetPriority` was called on (in order) and the time elapsed since the
call. -/
structure WaitOutcome where
  ok : Bool
  polls : Nat
  sleeps : Nat
  prioritized : List Int
  elapsed : Nat
  deriving DecidableEq, Repr

/-- The outer loop `for time.Since(startTime) < maxWaitTime` of
`waitForDataAvailable`; `acc.elapsed` is `time.Since(startTime)`. -/
def waitLoop (t : Torrent) (startTime : Nat) (startPiece endPiece : Int) (acc : WaitOutcome) :
    WaitOutcome :=
  if acc.elapsed < maxWaitTime then
    match scanPieces t (startTime + acc.elapsed) (endPiece - startPiece + 1).toNat startPiece with
    | none => { acc with ok := true, polls := acc.polls + 1 }
    | some p =>
      waitLoop t startTime startPiece endPiece
        { acc with polls := acc.polls + 1, sleeps := acc.sleeps + 1,
                   prioritized := acc.prioritized ++ [p],
                   elapsed := acc.elapsed + checkInterval }
  else { acc with ok := false }
termination_by maxWaitTime - acc.elapsed
decreasing_by
  simp only [checkInterval]
  omega

/-- The function `waitForDataAvailable(torrentFile, position, length)` called at
time `now`. -/
def waitForDataAvailable (tf : TorrentFile) (now : Nat) (position length : Int) : WaitOutcome :=
  let pieceLength := tf.torrent.pieceLength
  let startPiece := Int.tdiv position pieceLength
  let endPiece := Int.tdiv (position + length - 1) pieceLength
  waitLoop tf.torrent now startPiece endPiece
    { ok := false, polls := 0, sleeps := 0, prioritized := [], elapsed := 0 }

/-! ## Chunked stream loops -/

/-- The error returned by a `Read`: `nil`, `io.EOF` or any other error. -/
inductive ReadErr where
  | nil
  | eof
  | other
  deriving DecidableEq, Repr

/-- The result `(n, err)` of a `Read`. -/
structure ReadResult where
  n : Nat
  err : ReadErr
  deriving DecidableEq, Repr

/-- The environment of one stream: for the `i`-th loop iteration, what the read
at `position` for `toRead` bytes returns, whether `c.Writer.Write` fails, how
many bytes a failing `Write` got through before its error (the count the source
discards) and whether `c.Request.Context().Done()` is ready when it is checked. -/
structure Client where
  read : Nat → Int → Int → ReadResult
  writeFails : Nat → Bool
  written : Nat → Nat
  disconnected : Nat → Bool

/-- One `c.Writer.Write(buffer[:n])`: the file offset of the first byte and the
bytes written (all of `buffer[:n]`, or the leading part of it that a failing
`Write` got through). -/
structure Chunk where
  offset : Int
  data : List Nat
  deriving DecidableEq, Repr

/-- Why a stream loop ended. -/
inductive StopReason where
  | completed
  | waitTimeout
  | readError
  | zeroRead
  | writeError
  | disconnected
  deriving DecidableEq, Repr

/-- What a stream loop did: the chunks written (in order, the last one being
that of the failing `Write` when the loop ended on a write error), the numbers
of availability waits, reads and successful writes, the clock at the end and
the reason the loop ended. -/
structure StreamOutcome where
  chunks : List Chunk
  waits : Nat
  reads : Nat
  writes : Nat
  now : Nat
  reason : StopReason
  deriving DecidableEq, Repr

/-- The bytes of a file at the offsets `pos, ..., pos + n - 1`. -/
def fileBytes (content : Int → Nat) (pos : Int) (n : Nat) : List Nat :=
  (List.range n).map (fun (j : Nat) => content (pos + (j : Int)))

/-- `len(buffer)` of the 32 KiB buffer of the stream loops. -/
def bufferSize : Int := 32768

/-- The loop of `streamTorrentRange` in its `i`-th iteration; `acc` holds what
was done so far (`acc.reason` is not read). -/
def streamTorrentLoop (tf : TorrentFile) (env : Client) (remaining currentPos : Int) (i : Nat)
    (acc : StreamOutcome) : StreamOutcome :=
  if 0 < remaining then
    let toRead := if remaining < bufferSize then remaining else bufferSize
    let w := waitForDataAvailable tf acc.now currentPos toRead
    let acc1 := { acc with waits := acc.waits + 1, now := acc.now + w.elapsed }
    if ¬ w.ok then { acc1 with reason := StopReason.waitTimeout }
    else
      let r := env.read i currentPos toRead
      let acc2 := { acc1 with reads := acc1.reads + 1 }
      if r.err = ReadErr.other then { acc2 with reason := StopReason.readError }
      else if r.n = 0 then { acc2 with reason := StopReason.zeroRead }
      else if env.writeFails i then
        { acc2 with
          chunks := acc2.chunks ++
            [{ offset := currentPos,
               data := fileBytes tf.content currentPos (min (env.written i) r.n) }],
          reason := StopReason.writeError }
      else
        let acc3 := { acc2 with
          chunks := acc2.chunks ++ [{ offset := currentPos, data := fileBytes tf.content currentPos r.n }],
          writes := acc2.writes + 1 }
        if env.disconnected i then { acc3 with reason := StopReason.disconnected }
        else streamTorrentLoop tf env (remaining - r.n) (currentPos + r.n) (i + 1) acc3
  else { acc with reason := StopReason.completed }
termination_by remaining.toNat
decreasing_by
  show (remaining - (r.n : Int)).toNat < remaining.toNat
  omega

/-- The function `streamTorrentRange(c, torrentFile, start, contentLength)` called
at time `now`. -/
def streamTorrentRange (tf : TorrentFile) (env : Client) (now : Nat) (start contentLength : Int) :
    StreamOutcome :=
  streamTorrentLoop tf env contentLength start 0
    { chunks := [], waits := 0, reads := 0, writes := 0, now := now,
      reason := StopReason.completed }

/-- An open `*os.File`: the byte stored at each offset and the read cursor. -/
structure LocalFile where
  content : Int → Nat
  cursor : Int

/-- The loop of `streamRange` in its `i`-th iteration; `file.Read` reads at the
cursor and advances it by the number of bytes read. -/
def streamRangeLoop (file : LocalFile) (env : Client) (remaining : Int) (i : Nat)
    (acc : StreamOutcome) : StreamOutcome :=
  if 0 < remaining then
    let toRead := if remaining < bufferSize then remaining else bufferSize
    let r := env.read i file.cursor toRead
    let acc2 := { acc with reads := acc.reads + 1 }
    if r.err = ReadErr.other then { acc2 with reason := StopReason.readError }
    else if r.n = 0 then { acc2 with reason := StopReason.zeroRead }
    else if env.writeFails i then
      { acc2 with
        chunks := acc2.chunks ++
          [{ offset := file.cursor,
             data := fileBytes file.content file.cursor (min (env.written i) r.n) }],
        reason := StopReason.writeError }
    else
      let acc3 := { acc2 with
        chunks := acc2.chunks ++ [{ offset := file.cursor, data := fileBytes file.content file.cursor r.n }],
        writes := acc2.writes + 1 }
      streamRangeLoop { file with cursor := file.cursor + r.n } env (remaining - r.n) (i + 1) acc3
  else { acc with reason := StopReason.completed }
termination_by remaining.toNat
decreasing_by
  show (remaining - (r.n : Int)).toNat < remaining.toNat
  omega

/-- The function `streamRange(c, file, contentLength)`. -/
def streamRange (file : LocalFile) (env : Client) (contentLength : Int) : StreamOutcome :=
  streamRangeLoop file env contentLength 0
    { chunks := [], waits := 0, reads := 0, writes := 0, now := 0,
      reason := StopReason.completed }

/-- The loop of `streamTorrentFile` in its `i`-th iteration, over the whole file
(`fileSize := torrentFile.Length()`); the one reader of the function reads at
`currentPos`, which it advances by the bytes read. -/
def streamTorrentFileLoop (tf : TorrentFile) (env : Client) (currentPos : Int) (i : Nat)
    (acc : StreamOutcome) : StreamOutcome :=
  if currentPos < tf.length then
    let toRead := if tf.length - currentPos < bufferSize then tf.length - currentPos else bufferSize
    let w := waitForDataAvailable tf acc.now currentPos toRead
    let acc1 := { acc with waits := acc.waits + 1, now := acc.now + w.elapsed }
    if ¬ w.ok then { acc1 with reason := StopReason.waitTimeout }
    else
      let r := env.read i currentPos toRead
      let acc2 := { acc1 with reads := acc1.reads + 1 }
      if r.err = ReadErr.other then { acc2 with reason := StopReason.readError }
      else if r.n = 0 then { acc2 with reason := StopReason.zeroRead }
      else if env.writeFails i then
        { acc2 with
          chunks := acc2.chunks ++
            [{ offset := currentPos,
               data := fileBytes tf.content currentPos (min (env.written i) r.n) }],
          reason := StopReason.writeError }
      else
        let acc3 := { acc2 with
          chunks := acc2.chunks ++ [{ offset := currentPos, data := fileBytes tf.content currentPos r.n }],
          writes := acc2.writes + 1 }
        if env.disconnected i then { acc3 with reason := StopReason.disconnected }
        else streamTorrentFileLoop tf env (currentPos + r.n) (i + 1) acc3
  else { acc with reason := StopReason.completed }
termination_by (tf.length - currentPos).toNat
decreasing_by
  show (tf.length - (currentPos + (r.n : Int))).toNat < (tf.length - currentPos).toNat
  omega

/-- The function `streamTorrentFile(c, torrentFile)` called at time `now`. -/
def streamTorrentFile (tf : TorrentFile) (env : Client) (now : Nat) : StreamOutcome :=
  streamTorrentFileLoop tf env 0 0
    { chunks := [], waits := 0, reads := 0, writes := 0, now := now,
      reason := StopReason.completed }

/-! ## Piece spans -/

/-- The value `startPiece := int(position / pieceLength)` of `waitForDataAvailable`
and `isTorrentPositionPlayable`. -/
def startPieceOf (pieceLength position : Int) : Int :=
  Int.tdiv position pieceLength

/-- The value `endPiece := int((position + length - 1) / pieceLength)` of
`waitForDataAvailable` and `isTorrentPositionPlayable`. -/
def endPieceOf (pieceLength position length : Int) : Int :=
  Int.tdiv (position + length - 1) pieceLength

/-- The loop of `isTorrentPositionPlayable` at time `now`, started at
`pieceIndex` with `count` indices left up to `endPiece`: `false` at the first
incomplete piece, `true` when the span is exhausted or
`pieceIndex >= NumPieces()`. -/
def playableScan (t : Torrent) (now : Nat) : Nat → Int → Bool
  | 0, _ => true
  | count + 1, pieceIndex =>
    if pieceIndex < t.numPieces then
      if ¬ t.complete now pieceIndex then false
      else playableScan t now count (pieceIndex + 1)
    else true

/-- The function `isTorrentPositionPlayable(torrentFile, position, bufferSize)`
called at time `now`. -/
def isTorrentPositionPlayable (tf : TorrentFile) (now : Nat) (position bufferSize : Int) : Bool :=
  let pieceLength := tf.torrent.pieceLength
  let startPiece := Int.tdiv position pieceLength
  let endPiece := Int.tdiv (position + bufferSize - 1) pieceLength
  playableScan tf.torrent now (endPiece - startPiece + 1).toNat startPiece

/-! ## Download registry (`simple_torrent_service.go`)

Every operation below runs under `sts.mutex`, so each is one atomic step on the
map `sts.torrents`. -/

/-- The fields of a `TorrentStatus` that the registry operations write, and
`dropped`, which records that `Torrent.Drop()` was called on its torrent. The
`float64` field `Progress` and `AddedTime` are left out. -/
structure TorrentStatus where
  Name : String
  Status : String
  Downloaded : Int
  Total : Int
  dropped : Bool
  deriving DecidableEq, Repr

/-- The map `sts.torrents`, from info hash to status. -/
abbrev Registry := String → Option TorrentStatus

/-- The status written by `CancelDownload`. -/
def statusCancelled : String := "已取消"

/-- The status written by `monitorProgress` when the torrent is complete. -/
def statusCompleted : String := "下载完成"

/-- The status written by `monitorProgress` while the torrent is incomplete. -/
def statusDownloading : String := "下载中"

/-- The status written by `handleTorrent` when the metadata has arrived. -/
def statusStarted : String := "开始下载"

/-- The status written by `handleTorrent` when the metadata wait times out. -/
def statusTimedOut : String := "获取信息超时"

/-- The map with the entry of `hash` replaced. -/
def Registry.set (torrents : Registry) (hash : String) (status : TorrentStatus) : Registry :=
  fun h => if h = hash then some status else torrents h

/-- The function `CancelDownload(hash)`: an error for an unknown hash, otherwise
`status.Torrent.Drop()` and `status.Status = "已取消"`. -/
def CancelDownload (torrents : Registry) (hash : String) : Except String Registry :=
  match torrents hash with
  | none => Except.error "下载任务不存在"
  | some status =>
    Except.ok (torrents.set hash { status with dropped := true, Status := statusCancelled })

/-- What the goroutine `go sts.handleTorrent(t, hash)` can receive in a
`select`: the metadata (`<-t.GotInfo()`, with `t.Name()` and `t.Length()`), the
metadata timeout (`<-time.After(30 * time.Second)`), a tick of the monitor
(`<-ticker.C`, with `t.BytesCompleted()` and `t.Complete.Bool()`) and the close
of the torrent (`<-t.Closed()`). -/
inductive GoroutineEvent where
  | gotInfo (name : String) (length : Int)
  | infoTimeout
  | tick (bytesCompleted : Int) (complete : Bool)
  | closed
  deriving DecidableEq, Repr

/-- Where the goroutine stands: in the `select` of `handleTorrent`, in the loop
of `monitorProgress`, or returned. -/
inductive GoroutinePhase where
  | awaitingInfo
  | monitoring
  | finished
  deriving DecidableEq, Repr

/-- One iteration of the `for { select { ... } }` loop of `monitorProgress`: a
tick writes `Downloaded` and the status of an existing entry and returns when the
torrent is complete; the close of the torrent returns. Events the loop does not
select on leave everything as it is. -/
def monitorProgress (torrents : Registry) (hash : String) (ev : GoroutineEvent) :
    GoroutinePhase × Registry :=
  match ev with
  | GoroutineEvent.tick bytesCompleted complete =>
    match torrents hash with
    | some status =>
      if complete then
        (GoroutinePhase.finished,
          torrents.set hash { status with Downloaded := bytesCompleted, Status := statusCompleted })
      else
        (GoroutinePhase.monitoring,
          torrents.set hash { status with Downloaded := bytesCompleted, Status := statusDownloading })
    | none => (GoroutinePhase.monitoring, torrents)
  | GoroutineEvent.closed => (GoroutinePhase.finished, torrents)
  | _ => (GoroutinePhase.monitoring, torrents)

/-- One step of the goroutine `handleTorrent(t, hash)` in phase `phase`: its
`select` on the metadata and the timeout, then the loop of `monitorProgress`; a
returned goroutine does nothing. -/
def handleTorrent (torrents : Registry) (hash : String) (phase : GoroutinePhase)
    (ev : GoroutineEvent) : GoroutinePhase × Registry :=
  match phase with
  | GoroutinePhase.awaitingInfo =>
    match ev with
    | GoroutineEvent.gotInfo name length =>
      match torrents hash with
      | some status =>
        (GoroutinePhase.monitoring,
          torrents.set hash { status with Name := name, Status := statusStarted, Total := length })
      | none => (GoroutinePhase.monitoring, torrents)
    | GoroutineEvent.infoTimeout =>
      match torrents hash with
      | some status =>
        (GoroutinePhase.finished, torrents.set hash { status with Status := statusTimedOut })
      | none => (GoroutinePhase.finished, torrents)
    | _ => (GoroutinePhase.awaitingInfo, torrents)
  | GoroutinePhase.monitoring => monitorProgress torrents hash ev
  | GoroutinePhase.finished => (GoroutinePhase.finished, torrents)

/-- The chunks start at `pos` and each one starts where the one before ended. -/
def contiguousFrom : Int → List Chunk → Prop
  | _, [] => True
  | pos, c :: cs => c.offset = pos ∧ contiguousFrom (pos + c.data.length) cs

/-- Every operation that a run of the loop of `streamTorrentRange` issues, from
its `i`-th iteration at time `now` on, succeeds: the availability wait of each
iteration returns `true`, its read returns at least one byte with a `nil` error,
its write succeeds and its disconnect check finds the client connected. Only
the waits, reads, writes and checks of this run are constrained: the next
iteration is the one the loop goes to, at the cursor advanced by the bytes read
and the clock advanced by the wait. -/
def torrentRunSucceeds (tf : TorrentFile) (env : Client) (remaining currentPos : Int)
    (i now : Nat) : Prop :=
  if 0 < remaining then
    let toRead := if remaining < bufferSize then remaining else bufferSize
    let w := waitForDataAvailable tf now currentPos toRead
    let r := env.read i currentPos toRead
    if 1 ≤ r.n then
      w.ok = true ∧ r.err = ReadErr.nil ∧ env.writeFails i = false ∧
        env.disconnected i = false ∧
        torrentRunSucceeds tf env (remaining - r.n) (currentPos + r.n) (i + 1) (now + w.elapsed)
    else False
  else True
termination_by remaining.toNat
decreasing_by
  show (remaining - (r.n : Int)).toNat < remaining.toNat
  omega

/-- Every operation that a run of the loop of `streamRange` issues, from its
`i`-th iteration on, succeeds: the read of each iteration returns at least one
byte with a `nil` error and its write succeeds. -/
def localRunSucceeds (file : LocalFile) (env : Client) (remaining : Int) (i : Nat) : Prop :=
  if 0 < remaining then
    let toRead := if remaining < bufferSize then remaining else bufferSize
    let r := env.read i file.cursor toRead
    if 1 ≤ r.n then
      r.err = ReadErr.nil ∧ env.writeFails i = false ∧
        localRunSucceeds { file with cursor := file.cursor + r.n } env (remaining - r.n) (i + 1)
    else False
  else True
termination_by remaining.toNat
decreasing_by
  show (remaining - (r.n : Int)).toNat < remaining.toNat
  omega

/-- The `io.Reader` contract on the byte count: a read returns at most the
bytes asked for. -/
def readsWithinRequest (env : Client) : Prop :=
  ∀ (i : Nat) (pos want : Int), 1 ≤ want → ((env.read i pos want).n : Int) ≤ want

/-- What a completed stream over `count` bytes from `pos` has appended to the
chunks: contiguous chunks from `pos` of 1 to 32768 bytes each, holding the file
bytes `pos, ..., pos + count - 1`. -/
def deliversRange (content : Int → Nat) (pos : Int) (count : Nat) (cs : List Chunk) : Prop :=
  contiguousFrom pos cs ∧
  (∀ c ∈ cs, 1 ≤ c.data.length ∧ c.data.length ≤ 32768) ∧
  (cs.map Chunk.data).flatten = fileBytes content pos count

/-! ## Sample inputs -/

/-- A torrent of seven 16 KiB pieces, all complete at all times, with one file
of 100000 bytes. -/
def completeFile : TorrentFile :=
  { torrent := { pieceLength := 16384, numPieces := 7, complete := fun _ _ => true },
    offset := 0, length := 100000, content := fun i => (i % 256).toNat }

/-- A local file with the same bytes, its cursor at offset 500. -/
def localFileAt500 : LocalFile :=
  { content := fun i => (i % 256).toNat, cursor := 500 }

/-- A client that stays connected, whose writes succeed, served by reads that
fill the buffer. -/
def steadyClient : Client :=
  { read := fun _ _ want => { n := want.toNat, err := ReadErr.nil },
    writeFails := fun _ => false,
    written := fun _ => 0,
    disconnected := fun _ => false }

/-- A client whose reads and writes succeed and that is found gone at every
disconnect check. -/
def leavingClient : Client :=
  { read := fun _ _ want => { n := want.toNat, err := ReadErr.nil },
    writeFails := fun _ => false,
    written := fun _ => 0,
    disconnected := fun _ => true }

/-- The same torrent with no piece ever complete. -/
def stalledFile : TorrentFile :=
  { torrent := { pieceLength := 16384, numPieces := 7, complete := fun _ _ => false },
    offset := 0, length := 100000, content := fun i => (i % 256).toNat }

/-- The second file of a two-file torrent of ten 16 KiB pieces: it begins at
torrent offset 81920 (piece 5) and is 81920 bytes long; only the pieces 0 to 4,
which hold the first file, are complete. -/
def secondFile : TorrentFile :=
  { torrent := { pieceLength := 16384, numPieces := 10,
                 complete := fun _ i => decide (i < 5) },
    offset := 81920, length := 81920, content := fun i => (i % 256).toNat }

/-- A partly downloaded torrent: of its seven 16 KiB pieces the first four are
complete and the last three never are. -/
def partialFile : TorrentFile :=
  { torrent := { pieceLength := 16384, numPieces := 7,
                 complete := fun _ i => decide (i < 4) },
    offset := 0, length := 100000, content := fun i => (i % 256).toNat }

/-- A connected client served by a reader over a file of 100000 bytes: a read
inside the file fills the buffer up to the end of the file, a read at or past
the end returns no byte and `io.EOF`. -/
def finiteClient : Client :=
  { read := fun _ pos want =>
      if pos < 100000 then { n := min want.toNat (100000 - pos).toNat, err := ReadErr.nil }
      else { n := 0, err := ReadErr.eof },
    writeFails := fun _ => false,
    written := fun _ => 0,
    disconnected := fun _ => false }

/-- A registry with one entry, of hash `abc`, in the given status. -/
def registryWith (status : String) : Registry :=
  fun h => if h = "abc" then
    some { Name := "movie", Status := status, Downloaded := 10, Total := 10, dropped := false }
  else none

/-! ## Arithmetic helpers -/

theorem wrapInt64_of_range {x : Int} (h1 : -2 ^ 63 ≤ x) (h2 : x < 2 ^ 63) : wrapInt64 x = x := by
  unfold wrapInt64
  have e63 : (2 : Int) ^ 63 = 9223372036854775808 := by norm_num
  have e64 : (2 : Int) ^ 64 = 18446744073709551616 := by norm_num
  rw [e63, e64] at *
  omega

theorem formatInt_natCast (n : Nat) : formatInt (n : Int) = Nat.repr n := rfl

/-! ## Decimal digits: printing and parsing -/

theorem toDigitsCore_append (n : Nat) : ∀ (fuel : Nat) (ds : List Char), n < fuel →
    Nat.toDigitsCore 10 fuel n ds = Nat.toDigits 10 n ++ ds := by
  induction n using Nat.strong_induction_on with
  | _ n ih =>
    intro fuel ds hf
    obtain ⟨f, rfl⟩ : ∃ f, fuel = f + 1 := ⟨fuel - 1, by omega⟩
    unfold Nat.toDigits
    simp only [Nat.toDigitsCore]
    by_cases h0 : n / 10 = 0
    · simp [h0]
    · simp only [h0, if_false]
      have hlt : n / 10 < n := by omega
      rw [ih (n / 10) hlt f _ (by omega), ih (n / 10) hlt n _ hlt]
      simp

theorem toDigits_step (n : Nat) : Nat.toDigits 10 n =
    if n / 10 = 0 then [Nat.digitChar (n % 10)]
    else Nat.toDigits 10 (n / 10) ++ [Nat.digitChar (n % 10)] := by
  conv_lhs => unfold Nat.toDigits
  simp only [Nat.toDigitsCore]
  by_cases h0 : n / 10 = 0
  · simp [h0]
  · simp only [h0, if_false]
    exact toDigitsCore_append (n / 10) n _ (by omega)

theorem digitVal_digitChar (d : Nat) (h : d < 10) :
    strconv.digitVal (Nat.digitChar d) = some d := by
  interval_cases d <;> decide

theorem digitChar_ne_dash (d : Nat) (h : d < 10) : Nat.digitChar d ≠ '-' := by
  interval_cases d <;> decide

theorem dash_not_mem_toDigits (n : Nat) : '-' ∉ Nat.toDigits 10 n := by
  induction n using Nat.strong_induction_on with
  | _ n ih =>
    rw [toDigits_step]
    have hd := digitChar_ne_dash (n % 10) (Nat.mod_lt _ (by decide))
    by_cases h0 : n / 10 = 0
    · simp [h0, hd.symm]
    · simp only [h0, if_false, List.mem_append, List.mem_singleton, not_or]
      exact ⟨ih (n / 10) (by omega), hd.symm⟩

theorem digit_of_mem_toDigits (n : Nat) (c : Char) (hc : c ∈ Nat.toDigits 10 n) :
    (strconv.digitVal c).isSome = true := by
  induction n using Nat.strong_induction_on with
  | _ n ih =>
    rw [toDigits_step] at hc
    have hd := digitVal_digitChar (n % 10) (Nat.mod_lt _ (by decide))
    by_cases h0 : n / 10 = 0
    · simp only [h0, if_true, List.mem_singleton] at hc
      simp [hc, hd]
    · simp only [h0, if_false, List.mem_append, List.mem_singleton] at hc
      rcases hc with hc | hc
      · exact ih (n / 10) (by omega) hc
      · simp [hc, hd]

theorem toDigits_ne_nil (n : Nat) : Nat.toDigits 10 n ≠ [] := by
  rw [toDigits_step]
  by_cases h0 : n / 10 = 0 <;> simp [h0]

theorem parseUintLoop_append_singleton (s : List Char) (c : Char) : ∀ n : Nat,
    strconv.parseUintLoop n (s ++ [c]) =
      (strconv.parseUintLoop n s).bind (fun m => strconv.parseUintLoop m [c]) := by
  induction s with
  | nil => intro n; simp [strconv.parseUintLoop]
  | cons x xs ih =>
    intro n
    simp only [List.cons_append, strconv.parseUintLoop]
    cases strconv.digitVal x with
    | none => simp
    | some d =>
      simp only
      split
      · simp
      · split
        · simp
        · exact ih _

theorem parseUintLoop_toDigits (n : Nat) :
    strconv.parseUintLoop 0 (Nat.toDigits 10 n) = if n ≤ strconv.maxUint64 then some n else none := by
  induction n using Nat.strong_induction_on with
  | _ n ih =>
    have hmax : strconv.maxUint64 = 18446744073709551615 := by decide
    have hcut : strconv.cutoff10 = 1844674407370955162 := by decide
    have hd := digitVal_digitChar (n % 10) (Nat.mod_lt _ (by decide))
    rw [toDigits_step]
    by_cases h0 : n / 10 = 0
    · simp only [h0, if_true, strconv.parseUintLoop, hd, hmax, hcut]
      have : n % 10 = n := by omega
      simp only [this]
      have hn : n < 10 := by omega
      have h5 : ¬ 18446744073709551615 < n := by omega
      have h6 : n ≤ 18446744073709551615 := by omega
      simp [h5, h6]
    · simp only [h0, if_false]
      rw [parseUintLoop_append_singleton, ih (n / 10) (by omega)]
      simp only [hmax]
      by_cases h1 : n / 10 ≤ 18446744073709551615
      · simp only [h1, if_true, Option.some_bind, strconv.parseUintLoop, hd, hcut, hmax]
        by_cases h2 : n / 10 ≥ 1844674407370955162
        · have : ¬ n ≤ 18446744073709551615 := by omega
          simp [h2, this]
        · have h3 : n / 10 * 10 + n % 10 = n := by omega
          simp only [h2, if_false, h3]
          by_cases h4 : n > 18446744073709551615
          · have : ¬ n ≤ 18446744073709551615 := by omega
            simp [h4, this]
          · have : n ≤ 18446744073709551615 := by omega
            simp [h4, this]
      · have : ¬ n ≤ 18446744073709551615 := by omega
        simp [h1, this]

theorem ParseUint_toDigits (n : Nat) :
    strconv.ParseUint (Nat.toDigits 10 n) = if n ≤ strconv.maxUint64 then some n else none := by
  have hne := toDigits_ne_nil n
  unfold strconv.ParseUint
  split
  · contradiction
  · exact parseUintLoop_toDigits n

theorem toDigits_head_not_sign (n : Nat) :
    ∃ c cs, Nat.toDigits 10 n = c :: cs ∧ c ≠ '+' ∧ c ≠ '-' := by
  have hp := ParseUint_toDigits n
  cases hds : Nat.toDigits 10 n with
  | nil => exact absurd hds (toDigits_ne_nil n)
  | cons c cs =>
    refine ⟨c, cs, rfl, ?_, ?_⟩
    · rintro rfl
      have hall := digit_of_mem_toDigits n '+' (by rw [hds]; simp)
      exact absurd hall (by decide)
    · rintro rfl
      exact dash_not_mem_toDigits n (by rw [hds]; simp)

theorem ParseInt_toDigits (n : Nat) :
    strconv.ParseInt (Nat.toDigits 10 n) = if n < 2 ^ 63 then some (n : Int) else none := by
  obtain ⟨c, cs, hds, hplus, hdash⟩ := toDigits_head_not_sign n
  have hp := ParseUint_toDigits n
  rw [hds] at hp ⊢
  have hmax : strconv.maxUint64 = 18446744073709551615 := by decide
  have e63 : (2 : Nat) ^ 63 = 9223372036854775808 := by norm_num
  simp only [strconv.ParseInt, hplus, hdash, or_self, if_false, hp, hmax, e63]
  by_cases h1 : n ≤ 18446744073709551615
  · simp only [h1, if_true]
    by_cases h2 : n < 9223372036854775808
    · have : ¬ 9223372036854775808 ≤ n := by omega
      simp [h2, this]
    · have : 9223372036854775808 ≤ n := by omega
      simp [h2, this]
  · have : ¬ n < 9223372036854775808 := by omega
    simp [h1, this]

/-! ## Splitting the header -/

theorem Split_of_not_mem (sep : Char) : ∀ s : List Char, sep ∉ s → strings.Split s sep = [s] := by
  intro s
  induction s with
  | nil => intro _; rfl
  | cons c cs ih =>
    intro h
    simp only [List.mem_cons, not_or] at h
    have hne : ¬ c = sep := fun h1 => h.1 h1.symm
    simp [strings.Split, hne, ih h.2]

theorem Split_append_sep (sep : Char) (rest : List Char) : ∀ a : List Char, sep ∉ a →
    strings.Split (a ++ sep :: rest) sep = a :: strings.Split rest sep := by
  intro a
  induction a with
  | nil => intro _; simp [strings.Split]
  | cons c cs ih =>
    intro h
    simp only [List.mem_cons, not_or] at h
    have hne : ¬ c = sep := fun h1 => h.1 h1.symm
    simp [strings.Split, hne, ih h.2]

theorem Split_length (sep : Char) : ∀ s : List Char,
    (strings.Split s sep).length = s.count sep + 1 := by
  intro s
  induction s with
  | nil => rfl
  | cons c cs ih =>
    by_cases hc : c = sep
    · subst hc
      simp [strings.Split, ih]
    · have hne : ¬ (c == sep) = true := by simpa using hc
      simp only [strings.Split, hc, if_false, List.count_cons, hne]
      cases hsp : strings.Split cs sep with
      | nil => rw [hsp] at ih; simp at ih
      | cons p ps => rw [hsp] at ih; simpa using ih

theorem TrimPrefix_bytes (rest : List Char) :
    strings.TrimPrefix ("bytes=".data ++ rest) "bytes=".data = rest := by
  have h : "bytes=".data = ['b', 'y', 't', 'e', 's', '='] := by decide
  simp [strings.TrimPrefix, h]

/-- A header whose characters are `bytes=`, a dash-free `a`, one dash and a
dash-free `b` splits into exactly `[a, b]`. -/
theorem split_header (hdr : String) (a b : List Char)
    (h : hdr.data = "bytes=".data ++ (a ++ '-' :: b)) (ha : '-' ∉ a) (hb : '-' ∉ b) :
    strings.Split (strings.TrimPrefix hdr.data "bytes=".data) '-' = [a, b] := by
  rw [h, TrimPrefix_bytes, Split_append_sep _ _ _ ha, Split_of_not_mem _ _ hb]

theorem handleTorrentRangeRequest_eq (fileSize : Int) (rangeHeader : String) :
    handleTorrentRangeRequest fileSize rangeHeader = handleRangeRequest fileSize rangeHeader := rfl

theorem repr_data (n : Nat) : (Nat.repr n).data = Nat.toDigits 10 n := rfl

theorem pow63_int : (2 : Int) ^ 63 = 9223372036854775808 := by norm_num

theorem pow63_nat : (2 : Nat) ^ 63 = 9223372036854775808 := by norm_num

/-- The accepting response for the resolved range `[s, e]` of a file of size
`total`, all three being natural numbers. -/
theorem partialContent_nat (total s e : Nat) (htot : total < 2 ^ 63) (hse : s ≤ e)
    (het : e < total) :
    partialContent s e total =
      { status := 206,
        contentRange := some ("bytes " ++ Nat.repr s ++ "-" ++ Nat.repr e ++ "/" ++ Nat.repr total),
        contentLength := some (Nat.repr (e - s + 1)),
        stream := some ((s : Int), (e : Int) - s + 1) } := by
  have e63 := pow63_nat
  have e63i := pow63_int
  have h4 : (e : Int) - s + 1 = ((e - s + 1 : Nat) : Int) := by omega
  have h5 : wrapInt64 ((e : Int) - s + 1) = (e : Int) - s + 1 := by
    apply wrapInt64_of_range <;> omega
  simp only [partialContent, h5, formatInt_natCast]
  rw [h4, formatInt_natCast]

theorem ParseInt_toDigits_small (n : Nat) (h : n < 2 ^ 63) :
    strconv.ParseInt (Nat.toDigits 10 n) = some (n : Int) := by
  rw [ParseInt_toDigits, if_pos h]

theorem ParseInt_toDigits_big (n : Nat) (h : ¬ n < 2 ^ 63) :
    strconv.ParseInt (Nat.toDigits 10 n) = none := by
  rw [ParseInt_toDigits, if_neg h]

/-- The header `bytes=<s>-<e>` with decimal numbers `s` and `e`: rejected when
`s` is outside the file or after the clamped end, accepted with the end clamped
to `total - 1` otherwise. -/
theorem handleRangeRequest_numeric (total s e : Nat) (htot : total < 2 ^ 63) :
    handleRangeRequest total ("bytes=" ++ Nat.repr s ++ "-" ++ Nat.repr e) =
      if (s : Int) ≥ total ∨ (s : Int) > min (e : Int) ((total : Int) - 1) then rangeNotSatisfiable
      else partialContent s (min (e : Int) ((total : Int) - 1)) total := by
  have hsp := split_header ("bytes=" ++ Nat.repr s ++ "-" ++ Nat.repr e) (Nat.toDigits 10 s)
    (Nat.toDigits 10 e) (by simp [String.data_append, repr_data]) (dash_not_mem_toDigits s)
    (dash_not_mem_toDigits e)
  have e63 := pow63_nat
  have e63i := pow63_int
  have hw : wrapInt64 ((total : Int) - 1) = (total : Int) - 1 := by
    apply wrapInt64_of_range <;> omega
  unfold handleRangeRequest
  simp only [hsp, ne_eq, toDigits_ne_nil, not_false_eq_true, if_true, hw]
  by_cases hs : s < 2 ^ 63
  · have h1 : ¬ ((s : Int) < 0) := by omega
    simp only [ParseInt_toDigits_small s hs, h1, if_false]
    by_cases he : e < 2 ^ 63
    · simp only [ParseInt_toDigits_small e he]
      by_cases het : (e : Int) ≥ total
      · have hmin : min (e : Int) ((total : Int) - 1) = (total : Int) - 1 := by omega
        rw [if_pos het, hmin]
        by_cases hc : (s : Int) > (total : Int) - 1 ∨ (s : Int) ≥ total
        · rw [if_pos hc, if_pos (by omega)]
        · rw [if_neg hc, if_neg (by omega)]
      · have hmin : min (e : Int) ((total : Int) - 1) = e := by omega
        rw [if_neg het, hmin]
        by_cases hc : (s : Int) > e ∨ (s : Int) ≥ total
        · rw [if_pos hc, if_pos (by omega)]
        · rw [if_neg hc, if_neg (by omega)]
    · have hmin : min (e : Int) ((total : Int) - 1) = (total : Int) - 1 := by omega
      simp only [ParseInt_toDigits_big e he]
      rw [hmin]
      by_cases hc : (s : Int) > (total : Int) - 1 ∨ (s : Int) ≥ total
      · rw [if_pos hc, if_pos (by omega)]
      · rw [if_neg hc, if_neg (by omega)]
  · simp only [ParseInt_toDigits_big s hs]
    rw [if_pos (by omega)]

/-- The open header `bytes=<s>-`: the end is the last byte of the file. -/
theorem handleRangeRequest_open (total s : Nat) (htot : total < 2 ^ 63) :
    handleRangeRequest total ("bytes=" ++ Nat.repr s ++ "-") =
      if (s : Int) ≥ total then rangeNotSatisfiable
      else partialContent s ((total : Int) - 1) total := by
  have hsp := split_header ("bytes=" ++ Nat.repr s ++ "-") (Nat.toDigits 10 s) []
    (by simp [String.data_append, repr_data]) (dash_not_mem_toDigits s) (by simp)
  have e63 := pow63_nat
  have e63i := pow63_int
  have hw : wrapInt64 ((total : Int) - 1) = (total : Int) - 1 := by
    apply wrapInt64_of_range <;> omega
  unfold handleRangeRequest
  simp only [hsp, ne_eq, toDigits_ne_nil, not_false_eq_true, if_true, hw,
    not_true_eq_false, if_false]
  by_cases hs : s < 2 ^ 63
  · have h1 : ¬ ((s : Int) < 0) := by omega
    simp only [ParseInt_toDigits_small s hs, h1, if_false]
    by_cases hc : (s : Int) ≥ total
    · rw [if_pos hc, if_pos (by omega)]
    · rw [if_neg hc, if_neg (by omega)]
  · simp only [ParseInt_toDigits_big s hs]
    rw [if_pos (by omega)]

/-- The header `bytes=-<e>` with an empty start side: the start stays `0`. -/
theorem handleRangeRequest_suffix (total e : Nat) (htot : total < 2 ^ 63) :
    handleRangeRequest total ("bytes=-" ++ Nat.repr e) =
      if total = 0 then rangeNotSatisfiable
      else partialContent 0 (min (e : Int) ((total : Int) - 1)) total := by
  have hsp := split_header ("bytes=-" ++ Nat.repr e) [] (Nat.toDigits 10 e)
    (by simp [String.data_append, repr_data]) (by simp) (dash_not_mem_toDigits e)
  have e63 := pow63_nat
  have e63i := pow63_int
  have hw : wrapInt64 ((total : Int) - 1) = (total : Int) - 1 := by
    apply wrapInt64_of_range <;> omega
  unfold handleRangeRequest
  simp only [hsp, ne_eq, toDigits_ne_nil, not_false_eq_true, if_true, hw,
    not_true_eq_false, if_false]
  by_cases he : e < 2 ^ 63
  · simp only [ParseInt_toDigits_small e he]
    by_cases het : (e : Int) ≥ total
    · have hmin : min (e : Int) ((total : Int) - 1) = (total : Int) - 1 := by omega
      rw [if_pos het, hmin]
      by_cases h0 : total = 0
      · rw [if_pos (by omega), if_pos h0]
      · rw [if_neg (by omega), if_neg h0]
    · have hmin : min (e : Int) ((total : Int) - 1) = e := by omega
      rw [if_neg het, hmin, if_neg (by omega), if_neg (by omega)]
  · have hmin : min (e : Int) ((total : Int) - 1) = (total : Int) - 1 := by omega
    simp only [ParseInt_toDigits_big e he]
    rw [hmin]
    by_cases h0 : total = 0
    · rw [if_pos (by omega), if_pos h0]
    · rw [if_neg (by omega), if_neg h0]

/-! ## Range handlers: accepted and rejected headers -/

/-- C1: for a file of size `total` and `s ≤ e < total`, the header
`bytes=<s>-<e>` (decimal) is answered by both handlers with status 206, the range
`[s, e]`, `Content-Range: bytes <s>-<e>/<total>` and `Content-Length` `e-s+1`. -/
theorem closed_range_resolved (total s e : Nat) (htot : total < 2 ^ 63)
    (hse : s ≤ e) (het : e < total) :
    handleRangeRequest total ("bytes=" ++ Nat.repr s ++ "-" ++ Nat.repr e) =
      { status := 206,
        contentRange := some ("bytes " ++ Nat.repr s ++ "-" ++ Nat.repr e ++ "/" ++ Nat.repr total),
        contentLength := some (Nat.repr (e - s + 1)),
        stream := some ((s : Int), (e : Int) - s + 1) } ∧
    handleTorrentRangeRequest total ("bytes=" ++ Nat.repr s ++ "-" ++ Nat.repr e) =
      { status := 206,
        contentRange := some ("bytes " ++ Nat.repr s ++ "-" ++ Nat.repr e ++ "/" ++ Nat.repr total),
        contentLength := some (Nat.repr (e - s + 1)),
        stream := some ((s : Int), (e : Int) - s + 1) } := by
  have hmin : min (e : Int) ((total : Int) - 1) = e := by omega
  have key := handleRangeRequest_numeric total s e htot
  rw [if_neg (by omega), hmin, partialContent_nat total s e htot hse het] at key
  exact ⟨key, (handleTorrentRangeRequest_eq _ _).trans key⟩

theorem closed_range_resolved_witness :
    handleRangeRequest 1000 "bytes=100-299" =
      { status := 206, contentRange := some "bytes 100-299/1000",
        contentLength := some "200", stream := some (100, 200) } ∧
    handleTorrentRangeRequest 1000 "bytes=100-299" =
      { status := 206, contentRange := some "bytes 100-299/1000",
        contentLength := some "200", stream := some (100, 200) } :=
  closed_range_resolved 1000 100 299 (by norm_num) (by decide) (by decide)

/-- C2: for a file of size `total` and `s < total`, the open header `bytes=<s>-`
and every header `bytes=<s>-<e>` with a number `e ≥ total` are answered by both
handlers with status 206 and the end resolved to `total-1`. -/
theorem open_or_overlong_end_clamped (total s : Nat) (htot : total < 2 ^ 63) (hs : s < total) :
    (handleRangeRequest total ("bytes=" ++ Nat.repr s ++ "-") =
      { status := 206,
        contentRange := some ("bytes " ++ Nat.repr s ++ "-" ++ Nat.repr (total - 1) ++ "/"
          ++ Nat.repr total),
        contentLength := some (Nat.repr (total - s)),
        stream := some ((s : Int), (total : Int) - s) } ∧
     handleTorrentRangeRequest total ("bytes=" ++ Nat.repr s ++ "-") =
      { status := 206,
        contentRange := some ("bytes " ++ Nat.repr s ++ "-" ++ Nat.repr (total - 1) ++ "/"
          ++ Nat.repr total),
        contentLength := some (Nat.repr (total - s)),
        stream := some ((s : Int), (total : Int) - s) }) ∧
    ∀ e : Nat, total ≤ e →
      handleRangeRequest total ("bytes=" ++ Nat.repr s ++ "-" ++ Nat.repr e) =
        { status := 206,
          contentRange := some ("bytes " ++ Nat.repr s ++ "-" ++ Nat.repr (total - 1) ++ "/"
            ++ Nat.repr total),
          contentLength := some (Nat.repr (total - s)),
          stream := some ((s : Int), (total : Int) - s) } ∧
      handleTorrentRangeRequest total ("bytes=" ++ Nat.repr s ++ "-" ++ Nat.repr e) =
        { status := 206,
          contentRange := some ("bytes " ++ Nat.repr s ++ "-" ++ Nat.repr (total - 1) ++ "/"
            ++ Nat.repr total),
          contentLength := some (Nat.repr (total - s)),
          stream := some ((s : Int), (total : Int) - s) } := by
  have hcast : ((total : Int) - 1) = ((total - 1 : Nat) : Int) := by omega
  have hpc := partialContent_nat total s (total - 1) htot (by omega) (by omega)
  have hlen : total - 1 - s + 1 = total - s := by omega
  have hlen2 : ((total - 1 : Nat) : Int) - s + 1 = (total : Int) - s := by omega
  rw [hlen, hlen2] at hpc
  have hopen := handleRangeRequest_open total s htot
  rw [if_neg (by omega), hcast, hpc] at hopen
  refine ⟨⟨hopen, (handleTorrentRangeRequest_eq _ _).trans hopen⟩, ?_⟩
  intro e he
  have hmin : min (e : Int) ((total : Int) - 1) = ((total - 1 : Nat) : Int) := by omega
  have key := handleRangeRequest_numeric total s e htot
  rw [hmin, if_neg (by omega), hpc] at key
  exact ⟨key, (handleTorrentRangeRequest_eq _ _).trans key⟩

theorem open_or_overlong_end_clamped_witness :
    (handleRangeRequest 1000 "bytes=500-" =
      { status := 206, contentRange := some "bytes 500-999/1000",
        contentLength := some "500", stream := some (500, 500) } ∧
     handleTorrentRangeRequest 1000 "bytes=500-" =
      { status := 206, contentRange := some "bytes 500-999/1000",
        contentLength := some "500", stream := some (500, 500) }) ∧
    (handleRangeRequest 1000 "bytes=500-4000" =
      { status := 206, contentRange := some "bytes 500-999/1000",
        contentLength := some "500", stream := some (500, 500) } ∧
     handleTorrentRangeRequest 1000 "bytes=500-4000" =
      { status := 206, contentRange := some "bytes 500-999/1000",
        contentLength := some "500", stream := some (500, 500) }) :=
  ⟨(open_or_overlong_end_clamped 1000 500 (by norm_num) (by decide)).1,
   (open_or_overlong_end_clamped 1000 500 (by norm_num) (by decide)).2 4000 (by decide)⟩

/-- C3: for a file of size `total ≥ 0` and a header `bytes=<s>-<e>` with decimal
numbers, if `s ≥ total` or `s` is greater than the end clamped to `total-1`, both
handlers answer 416, set no `Content-Range` and make no streaming call. -/
theorem unsatisfiable_range_rejected (total s e : Nat) (htot : total < 2 ^ 63)
    (h : (s : Int) ≥ total ∨ (s : Int) > min (e : Int) ((total : Int) - 1)) :
    handleRangeRequest total ("bytes=" ++ Nat.repr s ++ "-" ++ Nat.repr e) =
      { status := 416, contentRange := none, contentLength := none, stream := none } ∧
    handleTorrentRangeRequest total ("bytes=" ++ Nat.repr s ++ "-" ++ Nat.repr e) =
      { status := 416, contentRange := none, contentLength := none, stream := none } := by
  have key := handleRangeRequest_numeric total s e htot
  rw [if_pos h] at key
  exact ⟨key, (handleTorrentRangeRequest_eq _ _).trans key⟩

theorem unsatisfiable_range_rejected_witness :
    handleRangeRequest 1000 "bytes=2000-3000" =
      { status := 416, contentRange := none, contentLength := none, stream := none } ∧
    handleTorrentRangeRequest 1000 "bytes=2000-3000" =
      { status := 416, contentRange := none, contentLength := none, stream := none } :=
  unsatisfiable_range_rejected 1000 2000 3000 (by norm_num) (by decide)

/-- C4 (as stated, refuted): the suffix header `bytes=-500` against a file of
1000 bytes is not rejected; both handlers answer 206 with the range `[0, 500]`. -/
theorem suffix_header_not_rejected :
    handleRangeRequest 1000 "bytes=-500" =
      { status := 206, contentRange := some "bytes 0-500/1000",
        contentLength := some "501", stream := some (0, 501) } ∧
    handleTorrentRangeRequest 1000 "bytes=-500" =
      { status := 206, contentRange := some "bytes 0-500/1000",
        contentLength := some "501", stream := some (0, 501) } := by
  decide

/-- C4 (amended): a header `bytes=-<e>` with an empty start side and a decimal end
side is read with start `0`: for a file of size `total > 0` both handlers answer
206 with the range `[0, min e (total-1)]`; for an empty file they answer 416. -/
theorem suffix_header_starts_at_zero (total e : Nat) (htot : total < 2 ^ 63) :
    (0 < total →
      handleRangeRequest total ("bytes=-" ++ Nat.repr e) =
        { status := 206,
          contentRange := some ("bytes 0-" ++ Nat.repr (min e (total - 1)) ++ "/"
            ++ Nat.repr total),
          contentLength := some (Nat.repr (min e (total - 1) + 1)),
          stream := some (0, ((min e (total - 1) : Nat) : Int) + 1) } ∧
      handleTorrentRangeRequest total ("bytes=-" ++ Nat.repr e) =
        { status := 206,
          contentRange := some ("bytes 0-" ++ Nat.repr (min e (total - 1)) ++ "/"
            ++ Nat.repr total),
          contentLength := some (Nat.repr (min e (total - 1) + 1)),
          stream := some (0, ((min e (total - 1) : Nat) : Int) + 1) }) ∧
    (total = 0 →
      handleRangeRequest total ("bytes=-" ++ Nat.repr e) = rangeNotSatisfiable ∧
      handleTorrentRangeRequest total ("bytes=-" ++ Nat.repr e) = rangeNotSatisfiable) := by
  have key := handleRangeRequest_suffix total e htot
  constructor
  · intro hpos
    have hmin : min (e : Int) ((total : Int) - 1) = ((min e (total - 1) : Nat) : Int) := by omega
    have hpc := partialContent_nat total 0 (min e (total - 1)) htot (by omega) (by omega)
    rw [if_neg (by omega), hmin] at key
    have hz : ((0 : Nat) : Int) = 0 := rfl
    rw [hz] at hpc
    rw [hpc] at key
    have h3 : "bytes " ++ Nat.repr 0 ++ "-" = "bytes 0-" := by decide
    simp only [Nat.sub_zero, sub_zero, h3] at key
    exact ⟨key, (handleTorrentRangeRequest_eq _ _).trans key⟩
  · intro h0
    rw [if_pos h0] at key
    exact ⟨key, (handleTorrentRangeRequest_eq _ _).trans key⟩

theorem suffix_header_starts_at_zero_witness :
    (handleRangeRequest 1000 "bytes=-2000" =
        { status := 206, contentRange := some "bytes 0-999/1000",
          contentLength := some "1000", stream := some (0, 1000) } ∧
      handleTorrentRangeRequest 1000 "bytes=-2000" =
        { status := 206, contentRange := some "bytes 0-999/1000",
          contentLength := some "1000", stream := some (0, 1000) }) ∧
    (handleRangeRequest 0 "bytes=-5" = rangeNotSatisfiable ∧
      handleTorrentRangeRequest 0 "bytes=-5" = rangeNotSatisfiable) :=
  ⟨(suffix_header_starts_at_zero 1000 2000 (by norm_num)).1 (by decide),
   (suffix_header_starts_at_zero 0 5 (by norm_num)).2 rfl⟩

theorem rangeNotSatisfiable_status : rangeNotSatisfiable.status ≠ 206 := by decide

/-- An accepted header resolves to a range inside the file. -/
theorem handleRangeRequest_accepted (total : Int) (hdr : String) (htot : total < 2 ^ 63)
    (h : (handleRangeRequest total hdr).status = 206) :
    ∃ start end_ : Int, 0 ≤ start ∧ start ≤ end_ ∧ end_ < total ∧
      handleRangeRequest total hdr =
        { status := 206,
          contentRange := some ("bytes " ++ formatInt start ++ "-" ++ formatInt end_ ++ "/"
            ++ formatInt total),
          contentLength := some (formatInt (end_ - start + 1)),
          stream := some (start, end_ - start + 1) } ∧
      1 ≤ end_ - start + 1 ∧ total ≠ 0 := by
  have e63i := pow63_int
  revert h
  unfold handleRangeRequest
  simp only []
  split
  · rename_i r0 r1 _
    split
    · intro h; exact absurd h rangeNotSatisfiable_status
    · rename_i start hstart
      have hs0 : 0 ≤ start := by
        revert hstart
        split
        · split
          · intro h; exact absurd h (by simp)
          · rename_i s _
            split
            · intro h; exact absurd h (by simp)
            · intro h
              simp only [Option.some.injEq] at h
              omega
        · intro h
          simp only [Option.some.injEq] at h
          omega
      have key : ∀ E : Int, (E = wrapInt64 (total - 1) ∨ E < total) →
          (if start > E ∨ start ≥ total then rangeNotSatisfiable
            else partialContent start E total).status = 206 →
          ∃ start_ end_ : Int, 0 ≤ start_ ∧ start_ ≤ end_ ∧ end_ < total ∧
            (if start > E ∨ start ≥ total then rangeNotSatisfiable
              else partialContent start E total) =
              { status := 206,
                contentRange := some ("bytes " ++ formatInt start_ ++ "-" ++ formatInt end_
                  ++ "/" ++ formatInt total),
                contentLength := some (formatInt (end_ - start_ + 1)),
                stream := some (start_, end_ - start_ + 1) } ∧
            1 ≤ end_ - start_ + 1 ∧ total ≠ 0 := by
        intro E hE
        by_cases hval : start > E ∨ start ≥ total
        · rw [if_pos hval]
          intro h; exact absurd h rangeNotSatisfiable_status
        · rw [if_neg hval]
          intro _
          have hlt : start < total := by omega
          have hw : wrapInt64 (total - 1) = total - 1 := by
            apply wrapInt64_of_range <;> omega
          have hle : E < total := by
            rcases hE with h | h
            · rw [h, hw]; omega
            · exact h
          have hw2 : wrapInt64 (E - start + 1) = E - start + 1 := by
            apply wrapInt64_of_range <;> omega
          refine ⟨start, E, hs0, by omega, hle, ?_, by omega, by omega⟩
          simp only [partialContent, hw2]
      by_cases hr1 : r1 ≠ []
      · rw [if_pos hr1]
        cases hp : strconv.ParseInt r1 with
        | none => exact key _ (Or.inl rfl)
        | some e =>
          dsimp only
          by_cases he : e ≥ total
          · rw [if_pos he]
            exact key _ (Or.inl rfl)
          · rw [if_neg he]
            exact key e (Or.inr (by omega))
      · rw [if_neg hr1]
        exact key _ (Or.inl rfl)
  · intro h; exact absurd h rangeNotSatisfiable_status

/-- C6: whenever a handler answers 206 for a file of size `total` (an `int64`),
the range it resolved satisfies `0 ≤ start ≤ end < total`; hence the range is
never empty and nothing is accepted for an empty file. -/
theorem accepted_range_within_file (total : Int) (hdr : String) (htot : total < 2 ^ 63) :
    ((handleRangeRequest total hdr).status = 206 →
      ∃ start end_ : Int, 0 ≤ start ∧ start ≤ end_ ∧ end_ < total ∧
        handleRangeRequest total hdr =
          { status := 206,
            contentRange := some ("bytes " ++ formatInt start ++ "-" ++ formatInt end_ ++ "/"
              ++ formatInt total),
            contentLength := some (formatInt (end_ - start + 1)),
            stream := some (start, end_ - start + 1) } ∧
        1 ≤ end_ - start + 1 ∧ total ≠ 0) ∧
    ((handleTorrentRangeRequest total hdr).status = 206 →
      ∃ start end_ : Int, 0 ≤ start ∧ start ≤ end_ ∧ end_ < total ∧
        handleTorrentRangeRequest total hdr =
          { status := 206,
            contentRange := some ("bytes " ++ formatInt start ++ "-" ++ formatInt end_ ++ "/"
              ++ formatInt total),
            contentLength := some (formatInt (end_ - start + 1)),
            stream := some (start, end_ - start + 1) } ∧
        1 ≤ end_ - start + 1 ∧ total ≠ 0) := by
  constructor
  · exact handleRangeRequest_accepted total hdr htot
  · intro h
    rw [handleTorrentRangeRequest_eq] at h ⊢
    exact handleRangeRequest_accepted total hdr htot h

theorem accepted_range_within_file_witness :
    (∃ start end_ : Int, 0 ≤ start ∧ start ≤ end_ ∧ end_ < 1000 ∧
        handleRangeRequest 1000 "bytes=500-" =
          { status := 206,
            contentRange := some ("bytes " ++ formatInt start ++ "-" ++ formatInt end_ ++ "/"
              ++ formatInt 1000),
            contentLength := some (formatInt (end_ - start + 1)),
            stream := some (start, end_ - start + 1) } ∧
        1 ≤ end_ - start + 1 ∧ (1000 : Int) ≠ 0) ∧
    (∃ start end_ : Int, 0 ≤ start ∧ start ≤ end_ ∧ end_ < 1000 ∧
        handleTorrentRangeRequest 1000 "bytes=500-" =
          { status := 206,
            contentRange := some ("bytes " ++ formatInt start ++ "-" ++ formatInt end_ ++ "/"
              ++ formatInt 1000),
            contentLength := some (formatInt (end_ - start + 1)),
            stream := some (start, end_ - start + 1) } ∧
        1 ≤ end_ - start + 1 ∧ (1000 : Int) ≠ 0) :=
  ⟨(accepted_range_within_file 1000 "bytes=500-" (by norm_num)).1 (by decide),
   (accepted_range_within_file 1000 "bytes=500-" (by norm_num)).2 (by decide)⟩

/-! ## Range handlers: sides that are not plain numbers -/

theorem parseUintLoop_nondigit (c : Char) (hc : strconv.digitVal c = none) :
    ∀ (s : List Char) (n : Nat), c ∈ s → strconv.parseUintLoop n s = none := by
  intro s
  induction s with
  | nil => intro n h; simp at h
  | cons x xs ih =>
    intro n h
    simp only [strconv.parseUintLoop]
    cases hx : strconv.digitVal x with
    | none => rfl
    | some d =>
      have hmem : c ∈ xs := by
        rcases List.mem_cons.mp h with h1 | h1
        · subst h1; rw [hc] at hx; cases hx
        · exact h1
      simp only
      split
      · rfl
      · split
        · rfl
        · exact ih _ hmem

theorem ParseUint_nondigit (c : Char) (hc : strconv.digitVal c = none) (s : List Char)
    (h : c ∈ s) : strconv.ParseUint s = none := by
  cases s with
  | nil => rfl
  | cons x xs => exact parseUintLoop_nondigit c hc (x :: xs) 0 h

/-- `ParseInt` fails on a dash-free string with a non-digit character that is
not a leading `+`. -/
theorem ParseInt_nondigit (s : List Char) (hdash : '-' ∉ s)
    (h : (∃ c ∈ s.tail, strconv.digitVal c = none) ∨
      (∃ c, s.head? = some c ∧ c ≠ '+' ∧ strconv.digitVal c = none)) :
    strconv.ParseInt s = none := by
  cases s with
  | nil =>
    rcases h with ⟨c, hc, _⟩ | ⟨c, hc, _⟩
    · simp at hc
    · simp at hc
  | cons x xs =>
    have hx : x ≠ '-' := fun hx => hdash (by simp [hx])
    simp only [strconv.ParseInt]
    by_cases hp : x = '+'
    · have hbody : strconv.ParseUint xs = none := by
        rcases h with ⟨c, hc, hd⟩ | ⟨c, hc, hne, _⟩
        · exact ParseUint_nondigit c hd xs (by simpa using hc)
        · simp only [List.head?_cons, Option.some.injEq] at hc
          exact absurd (hc ▸ hp) hne
      simp [hp, hbody]
    · have hbody : strconv.ParseUint (x :: xs) = none := by
        rcases h with ⟨c, hc, hd⟩ | ⟨c, hc, _, hd⟩
        · exact ParseUint_nondigit c hd (x :: xs) (List.mem_cons_of_mem _ (by simpa using hc))
        · simp only [List.head?_cons, Option.some.injEq] at hc
          exact ParseUint_nondigit c hd (x :: xs) (by simp [hc])
      simp [hp, hx, hbody]

/-- A header that does not split into exactly two pieces is rejected. -/
theorem handleRangeRequest_bad_shape (total : Int) (hdr : String)
    (h : (strings.Split (strings.TrimPrefix hdr.data "bytes=".data) '-').length ≠ 2) :
    handleRangeRequest total hdr = rangeNotSatisfiable := by
  unfold handleRangeRequest
  simp only []
  split
  · rename_i heq
    rw [heq] at h
    simp at h
  · rfl

/-- A start side with a non-digit character that is not a leading `+` makes
`handleRangeRequest` reject the header, whatever the end side is. -/
theorem handleRangeRequest_bad_start (total : Int) (a b : String)
    (h : (∃ c ∈ a.data.tail, strconv.digitVal c = none) ∨
      (∃ c, a.data.head? = some c ∧ c ≠ '+' ∧ strconv.digitVal c = none)) :
    handleRangeRequest total ("bytes=" ++ a ++ "-" ++ b) = rangeNotSatisfiable := by
  have hdata : ("bytes=" ++ a ++ "-" ++ b).data = "bytes=".data ++ (a.data ++ '-' :: b.data) := by
    simp [String.data_append]
  have hne : a.data ≠ [] := by
    rcases h with ⟨c, hc, _⟩ | ⟨c, hc, _⟩
    · intro h0; rw [h0] at hc; simp at hc
    · intro h0; rw [h0] at hc; simp at hc
  by_cases hd : '-' ∈ a.data ∨ '-' ∈ b.data
  · apply handleRangeRequest_bad_shape
    rw [hdata, TrimPrefix_bytes, Split_length]
    have h1 : List.count '-' (a.data ++ '-' :: b.data)
        = List.count '-' a.data + (List.count '-' b.data + 1) := by
      rw [List.count_append, List.count_cons_self]
    have h2 : 1 ≤ List.count '-' a.data ∨ 1 ≤ List.count '-' b.data := by
      rcases hd with hd | hd
      · exact Or.inl (List.one_le_count_iff.mpr hd)
      · exact Or.inr (List.one_le_count_iff.mpr hd)
    omega
  · have ha : '-' ∉ a.data := fun h1 => hd (Or.inl h1)
    have hb : '-' ∉ b.data := fun h1 => hd (Or.inr h1)
    have hsp := split_header _ a.data b.data hdata ha hb
    have hp := ParseInt_nondigit a.data ha h
    unfold handleRangeRequest
    simp only [hsp, hp, ne_eq, hne, not_false_eq_true, if_true]

/-- An end side on which `ParseInt` fails is read as an open end. -/
theorem handleRangeRequest_bad_end (total s : Nat) (b : String) (htot : total < 2 ^ 63)
    (hs : s < total) (hb : '-' ∉ b.data) (hp : strconv.ParseInt b.data = none) :
    handleRangeRequest total ("bytes=" ++ Nat.repr s ++ "-" ++ b) =
      partialContent s ((total : Int) - 1) total := by
  have hsp := split_header ("bytes=" ++ Nat.repr s ++ "-" ++ b) (Nat.toDigits 10 s) b.data
    (by simp [String.data_append, repr_data]) (dash_not_mem_toDigits s) hb
  have e63 := pow63_nat
  have e63i := pow63_int
  have hw : wrapInt64 ((total : Int) - 1) = (total : Int) - 1 := by
    apply wrapInt64_of_range <;> omega
  have h1 : ¬ ((s : Int) < 0) := by omega
  unfold handleRangeRequest
  simp only [hsp, ne_eq, toDigits_ne_nil, not_false_eq_true, if_true, hw,
    ParseInt_toDigits_small s (by omega), h1, if_false, hp, ite_self]
  rw [if_neg (by omega)]

/-- C5 (as stated, refuted): a non-digit end side (`abc`) is not rejected but
read as an open end, and a start side with a leading `+` is accepted as a
number. -/
theorem nondigit_side_not_rejected :
    handleRangeRequest 1000 "bytes=5-abc" =
      { status := 206, contentRange := some "bytes 5-999/1000",
        contentLength := some "995", stream := some (5, 995) } ∧
    handleTorrentRangeRequest 1000 "bytes=5-abc" =
      { status := 206, contentRange := some "bytes 5-999/1000",
        contentLength := some "995", stream := some (5, 995) } ∧
    handleRangeRequest 1000 "bytes=+5-10" =
      { status := 206, contentRange := some "bytes 5-10/1000",
        contentLength := some "6", stream := some (5, 6) } ∧
    handleTorrentRangeRequest 1000 "bytes=+5-10" =
      { status := 206, contentRange := some "bytes 5-10/1000",
        contentLength := some "6", stream := some (5, 6) } := by
  decide

/-- C5 (amended): a header `bytes=<a>-<b>` whose start side `a` has a non-digit
character that is not a leading `+` is answered 416 by both handlers, with no
streaming call; a dash-free end side `b` with such a character is not rejected:
for a decimal start `s < total` both handlers answer 206 with the range
`[s, total-1]`. -/
theorem nondigit_start_rejected_nondigit_end_open (total : Nat) (a b : String)
    (htot : total < 2 ^ 63) :
    ((∃ c ∈ a.data.tail, strconv.digitVal c = none) ∨
      (∃ c, a.data.head? = some c ∧ c ≠ '+' ∧ strconv.digitVal c = none) →
      handleRangeRequest total ("bytes=" ++ a ++ "-" ++ b) =
        { status := 416, contentRange := none, contentLength := none, stream := none } ∧
      handleTorrentRangeRequest total ("bytes=" ++ a ++ "-" ++ b) =
        { status := 416, contentRange := none, contentLength := none, stream := none }) ∧
    (∀ s : Nat, s < total → '-' ∉ b.data →
      (∃ c ∈ b.data.tail, strconv.digitVal c = none) ∨
        (∃ c, b.data.head? = some c ∧ c ≠ '+' ∧ strconv.digitVal c = none) →
      handleRangeRequest total ("bytes=" ++ Nat.repr s ++ "-" ++ b) =
        { status := 206,
          contentRange := some ("bytes " ++ Nat.repr s ++ "-" ++ Nat.repr (total - 1) ++ "/"
            ++ Nat.repr total),
          contentLength := some (Nat.repr (total - s)),
          stream := some ((s : Int), (total : Int) - s) } ∧
      handleTorrentRangeRequest total ("bytes=" ++ Nat.repr s ++ "-" ++ b) =
        { status := 206,
          contentRange := some ("bytes " ++ Nat.repr s ++ "-" ++ Nat.repr (total - 1) ++ "/"
            ++ Nat.repr total),
          contentLength := some (Nat.repr (total - s)),
          stream := some ((s : Int), (total : Int) - s) }) := by
  constructor
  · intro h
    have key := handleRangeRequest_bad_start total a b h
    exact ⟨key, (handleTorrentRangeRequest_eq _ _).trans key⟩
  · intro s hs hb h
    have hcast : ((total : Int) - 1) = ((total - 1 : Nat) : Int) := by omega
    have hpc := partialContent_nat total s (total - 1) htot (by omega) (by omega)
    have hlen : total - 1 - s + 1 = total - s := by omega
    have hlen2 : ((total - 1 : Nat) : Int) - s + 1 = (total : Int) - s := by omega
    rw [hlen, hlen2] at hpc
    have key := handleRangeRequest_bad_end total s b htot hs hb (ParseInt_nondigit b.data hb h)
    rw [hcast, hpc] at key
    exact ⟨key, (handleTorrentRangeRequest_eq _ _).trans key⟩

theorem nondigit_start_rejected_nondigit_end_open_witness :
    (handleRangeRequest 1000 "bytes=abc-10" =
        { status := 416, contentRange := none, contentLength := none, stream := none } ∧
      handleTorrentRangeRequest 1000 "bytes=abc-10" =
        { status := 416, contentRange := none, contentLength := none, stream := none }) ∧
    (handleRangeRequest 1000 "bytes=5-1x" =
        { status := 206, contentRange := some "bytes 5-999/1000",
          contentLength := some "995", stream := some (5, 995) } ∧
      handleTorrentRangeRequest 1000 "bytes=5-1x" =
        { status := 206, contentRange := some "bytes 5-999/1000",
          contentLength := some "995", stream := some (5, 995) }) :=
  ⟨(nondigit_start_rejected_nondigit_end_open 1000 "abc" "10" (by norm_num)).1
      (Or.inr ⟨'a', rfl, by decide, by decide⟩),
   (nondigit_start_rejected_nondigit_end_open 1000 "" "1x" (by norm_num)).2 5 (by decide)
      (by decide) (Or.inl ⟨'x', by decide, by decide⟩)⟩

/-! ## The availability waiter -/

/-- The scan leaves with `allAvailable = true` exactly when every piece of the
span below `NumPieces()` is complete. -/
theorem scanPieces_eq_none_iff (t : Torrent) (now : Nat) : ∀ (count : Nat) (idx : Int),
    scanPieces t now count idx = none ↔
      ∀ i : Int, idx ≤ i → i < idx + count → i < t.numPieces → t.complete now i = true := by
  intro count
  induction count with
  | zero =>
    intro idx
    constructor
    · intro _ i h1 h2
      have : ((0 : Nat) : Int) = 0 := rfl
      omega
    · intro _
      rfl
  | succ n ih =>
    intro idx
    simp only [scanPieces]
    by_cases hnum : idx ≥ t.numPieces
    · rw [if_pos hnum]
      constructor
      · intro _ i h1 _ h3
        omega
      · intro _
        rfl
    · rw [if_neg hnum]
      by_cases hc : t.complete now idx = true
      · have hc' : ¬ ¬ t.complete now idx = true := fun h => h hc
        rw [if_neg hc', ih (idx + 1)]
        constructor
        · intro h i h1 h2 h3
          by_cases hi : i = idx
          · rw [hi]; exact hc
          · exact h i (by omega) (by push_cast at h2 ⊢; omega) h3
        · intro h i h1 h2 h3
          exact h i (by omega) (by push_cast at h2 ⊢; omega) h3
      · rw [if_pos hc]
        constructor
        · intro h
          cases h
        · intro h
          exact absurd (h idx (by omega) (by push_cast; omega) (by omega)) hc

/-- A piece of the span below `NumPieces()` that is incomplete makes the scan
leave with `allAvailable = false`. -/
theorem scanPieces_isSome (t : Torrent) (now : Nat) (count : Nat) (idx k : Int)
    (h1 : idx ≤ k) (h2 : k < idx + count) (h3 : k < t.numPieces)
    (h4 : t.complete now k = false) : ∃ p, scanPieces t now count idx = some p := by
  cases hs : scanPieces t now count idx with
  | some p => exact ⟨p, rfl⟩
  | none =>
    have := (scanPieces_eq_none_iff t now count idx).mp hs k h1 h2 h3
    rw [h4] at this
    cases this

/-- While every poll finds an incomplete piece, the outer loop keeps polling
every `checkInterval` until `maxWaitTime` has elapsed and then gives up. -/
theorem waitLoop_never_complete (t : Torrent) (startTime : Nat) (startPiece endPiece : Int)
    (hscan : ∀ now, ∃ p, scanPieces t now (endPiece - startPiece + 1).toNat startPiece = some p) :
    ∀ (j : Nat) (acc : WaitOutcome), j ≤ 60 → acc.elapsed = checkInterval * (60 - j) →
      (waitLoop t startTime startPiece endPiece acc).ok = false ∧
      (waitLoop t startTime startPiece endPiece acc).polls = acc.polls + j ∧
      (waitLoop t startTime startPiece endPiece acc).sleeps = acc.sleeps + j ∧
      (waitLoop t startTime startPiece endPiece acc).prioritized.length
        = acc.prioritized.length + j ∧
      (waitLoop t startTime startPiece endPiece acc).elapsed = maxWaitTime := by
  intro j
  induction j with
  | zero =>
    intro acc _ hel
    have h30 : ¬ acc.elapsed < maxWaitTime := by
      simp only [checkInterval, maxWaitTime] at hel ⊢
      omega
    rw [waitLoop, if_neg h30]
    refine ⟨rfl, rfl, rfl, rfl, ?_⟩
    simp only [checkInterval, maxWaitTime] at hel ⊢
    omega
  | succ n ih =>
    intro acc hj hel
    have h30 : acc.elapsed < maxWaitTime := by
      simp only [checkInterval, maxWaitTime] at hel ⊢
      omega
    obtain ⟨p, hp⟩ := hscan (startTime + acc.elapsed)
    rw [waitLoop, if_pos h30, hp]
    simp only []
    have hnext := ih
      { acc with
        polls := acc.polls + 1, sleeps := acc.sleeps + 1,
        prioritized := acc.prioritized ++ [p],
        elapsed := acc.elapsed + checkInterval }
      (by omega) (by simp only [checkInterval] at hel ⊢; omega)
    obtain ⟨h1, h2, h3, h4, h5⟩ := hnext
    simp only [List.length_append, List.length_singleton] at h2 h3 h4
    refine ⟨h1, ?_, ?_, ?_, h5⟩
    · rw [h2]; omega
    · rw [h3]; omega
    · rw [h4]; omega

/-- C9: when every piece of the requested span below `NumPieces()` is complete
at the time of the call, `waitForDataAvailable` returns `true` in its first poll,
without sleeping and without a `SetPriority` call. -/
theorem wait_returns_at_once_when_complete (tf : TorrentFile) (now : Nat) (position length : Int)
    (hpl : 0 < tf.torrent.pieceLength) (hpos : 0 ≤ position) (hlen : 1 ≤ length)
    (hcomplete : ∀ i : Int, position / tf.torrent.pieceLength ≤ i →
      i ≤ (position + length - 1) / tf.torrent.pieceLength → i < tf.torrent.numPieces →
      tf.torrent.complete now i = true) :
    waitForDataAvailable tf now position length =
      { ok := true, polls := 1, sleeps := 0, prioritized := [], elapsed := 0 } := by
  have hs : Int.tdiv position tf.torrent.pieceLength = position / tf.torrent.pieceLength :=
    Int.tdiv_eq_ediv hpos (by omega)
  have he : Int.tdiv (position + length - 1) tf.torrent.pieceLength
      = (position + length - 1) / tf.torrent.pieceLength :=
    Int.tdiv_eq_ediv (by omega) (by omega)
  have hscan : scanPieces tf.torrent now
      ((position + length - 1) / tf.torrent.pieceLength - position / tf.torrent.pieceLength
        + 1).toNat (position / tf.torrent.pieceLength) = none := by
    rw [scanPieces_eq_none_iff]
    intro i h1 h2 h3
    exact hcomplete i h1 (by omega) h3
  unfold waitForDataAvailable
  simp only [hs, he]
  rw [waitLoop, if_pos (by decide)]
  simp only [Nat.add_zero, hscan]

theorem wait_returns_at_once_when_complete_witness :
    waitForDataAvailable
      { torrent := { pieceLength := 16384, numPieces := 10, complete := fun _ _ => true },
        offset := 0, length := 163840, content := fun _ => 0 } 0 50000 1000 =
      { ok := true, polls := 1, sleeps := 0, prioritized := [], elapsed := 0 } :=
  wait_returns_at_once_when_complete _ 0 50000 1000 (by decide) (by decide) (by decide)
    (fun _ _ _ _ => rfl)

/-- C10: when the requested span holds a piece below `NumPieces()` that is never
complete, `waitForDataAvailable` returns `false` after exactly
`maxWaitTime / checkInterval = 60` polls, each followed by one sleep of
`checkInterval`; it never returns `true`. -/
theorem wait_times_out_when_never_complete (tf : TorrentFile) (now : Nat) (position length : Int)
    (hpl : 0 < tf.torrent.pieceLength) (hpos : 0 ≤ position) (hlen : 1 ≤ length)
    (k : Int) (hk1 : position / tf.torrent.pieceLength ≤ k)
    (hk2 : k ≤ (position + length - 1) / tf.torrent.pieceLength)
    (hk3 : k < tf.torrent.numPieces) (hnever : ∀ time, tf.torrent.complete time k = false) :
    (waitForDataAvailable tf now position length).ok = false ∧
    (waitForDataAvailable tf now position length).polls = 60 ∧
    (waitForDataAvailable tf now position length).sleeps = 60 ∧
    (waitForDataAvailable tf now position length).prioritized.length = 60 ∧
    (waitForDataAvailable tf now position length).elapsed = maxWaitTime ∧
    maxWaitTime / checkInterval = 60 := by
  have hs : Int.tdiv position tf.torrent.pieceLength = position / tf.torrent.pieceLength :=
    Int.tdiv_eq_ediv hpos (by omega)
  have he : Int.tdiv (position + length - 1) tf.torrent.pieceLength
      = (position + length - 1) / tf.torrent.pieceLength :=
    Int.tdiv_eq_ediv (by omega) (by omega)
  have hscan : ∀ time, ∃ p, scanPieces tf.torrent time
      ((position + length - 1) / tf.torrent.pieceLength - position / tf.torrent.pieceLength
        + 1).toNat (position / tf.torrent.pieceLength) = some p := by
    intro time
    exact scanPieces_isSome tf.torrent time _ _ k hk1 (by omega) hk3 (hnever time)
  have key := waitLoop_never_complete tf.torrent now _ _ hscan 60
    { ok := false, polls := 0, sleeps := 0, prioritized := [], elapsed := 0 } (by decide)
    (by decide)
  unfold waitForDataAvailable
  simp only [hs, he]
  obtain ⟨h1, h2, h3, h4, h5⟩ := key
  exact ⟨h1, by simpa using h2, by simpa using h3, by simpa using h4, h5, by decide⟩

theorem wait_times_out_when_never_complete_witness :
    (waitForDataAvailable
      { torrent := { pieceLength := 16384, numPieces := 10, complete := fun _ _ => false },
        offset := 0, length := 163840, content := fun _ => 0 } 0 50000 1000).ok = false ∧
    (waitForDataAvailable
      { torrent := { pieceLength := 16384, numPieces := 10, complete := fun _ _ => false },
        offset := 0, length := 163840, content := fun _ => 0 } 0 50000 1000).polls = 60 :=
  let h := wait_times_out_when_never_complete
    { torrent := { pieceLength := 16384, numPieces := 10, complete := fun _ _ => false },
      offset := 0, length := 163840, content := fun _ => 0 } 0 50000 1000
    (by decide) (by decide) (by decide) 3 (by decide) (by decide) (by decide) (fun _ => rfl)
  ⟨h.1, h.2.1⟩

/-! ## The chunked stream loops -/

theorem fileBytes_length (content : Int → Nat) (pos : Int) (n : Nat) :
    (fileBytes content pos n).length = n := by
  simp [fileBytes]

theorem fileBytes_add (content : Int → Nat) (pos : Int) (a b : Nat) :
    fileBytes content pos (a + b) = fileBytes content pos a ++ fileBytes content (pos + a) b := by
  unfold fileBytes
  rw [List.range_add, List.map_append, List.map_map]
  congr 1
  apply List.map_congr_left
  intro j _
  simp only [Function.comp_apply]
  congr 1
  push_cast
  omega

theorem streamTorrentLoop_delivers (tf : TorrentFile) (env : Client)
    (hcontract : readsWithinRequest env) :
    ∀ (m : Nat) (remaining currentPos : Int) (i : Nat) (acc : StreamOutcome),
      remaining.toNat = m →
      torrentRunSucceeds tf env remaining currentPos i acc.now →
      ∃ cs, (streamTorrentLoop tf env remaining currentPos i acc).chunks = acc.chunks ++ cs ∧
        (streamTorrentLoop tf env remaining currentPos i acc).reason = StopReason.completed ∧
        deliversRange tf.content currentPos m cs := by
  intro m
  induction m using Nat.strong_induction_on with
  | _ m ih =>
    intro remaining currentPos i acc hm hrun
    rw [torrentRunSucceeds] at hrun
    rw [streamTorrentLoop]
    by_cases hrem : 0 < remaining
    · rw [if_pos hrem] at hrun ⊢
      simp only [] at hrun ⊢
      generalize htr : (if remaining < bufferSize then remaining else bufferSize) = toRead
        at hrun ⊢
      have hbounds : 1 ≤ toRead ∧ toRead ≤ 32768 ∧ toRead ≤ remaining := by
        rw [← htr]
        unfold bufferSize
        split <;> omega
      have hr3 := hcontract i currentPos toRead hbounds.1
      generalize waitForDataAvailable tf acc.now currentPos toRead = w at hrun ⊢
      generalize env.read i currentPos toRead = r at hrun hr3 ⊢
      by_cases hr2 : 1 ≤ r.n
      · rw [if_pos hr2] at hrun
        obtain ⟨hw, hr1, hwf, hd, hrec⟩ := hrun
        rw [if_neg (by rw [hw]; simp), if_neg (by rw [hr1]; decide), if_neg (by omega),
          if_neg (by rw [hwf]; simp), if_neg (by rw [hd]; simp)]
        have hlt : (remaining - (r.n : Int)).toNat < m := by omega
        obtain ⟨cs, h1, h2, h3, h4, h5⟩ := ih _ hlt (remaining - (r.n : Int))
          (currentPos + (r.n : Int)) (i + 1)
          { chunks := acc.chunks ++
              [{ offset := currentPos, data := fileBytes tf.content currentPos r.n }],
            waits := acc.waits + 1, reads := acc.reads + 1, writes := acc.writes + 1,
            now := acc.now + w.elapsed,
            reason := acc.reason } rfl hrec
        refine ⟨{ offset := currentPos, data := fileBytes tf.content currentPos r.n } :: cs,
          ?_, h2, ?_, ?_, ?_⟩
        · rw [h1]; simp
        · refine ⟨rfl, ?_⟩
          simp only [fileBytes_length]
          exact h3
        · intro c hc
          rcases List.mem_cons.mp hc with hc | hc
          · rw [hc]
            simp only [fileBytes_length]
            omega
          · exact h4 c hc
        · have hsum : m = r.n + (remaining - (r.n : Int)).toNat := by omega
          simp only [List.map_cons, List.flatten_cons, h5]
          rw [hsum, fileBytes_add]
      · rw [if_neg hr2] at hrun
        exact absurd hrun (fun h => h)
    · rw [if_neg hrem]
      have hm0 : m = 0 := by omega
      subst hm0
      exact ⟨[], by simp, rfl, trivial, by simp, by simp [fileBytes]⟩

theorem streamRangeLoop_delivers (env : Client) (hcontract : readsWithinRequest env) :
    ∀ (m : Nat) (file : LocalFile) (remaining : Int) (i : Nat) (acc : StreamOutcome),
      remaining.toNat = m →
      localRunSucceeds file env remaining i →
      ∃ cs, (streamRangeLoop file env remaining i acc).chunks = acc.chunks ++ cs ∧
        (streamRangeLoop file env remaining i acc).reason = StopReason.completed ∧
        deliversRange file.content file.cursor m cs := by
  intro m
  induction m using Nat.strong_induction_on with
  | _ m ih =>
    intro file remaining i acc hm hrun
    rw [localRunSucceeds] at hrun
    rw [streamRangeLoop]
    by_cases hrem : 0 < remaining
    · rw [if_pos hrem] at hrun ⊢
      simp only [] at hrun ⊢
      generalize htr : (if remaining < bufferSize then remaining else bufferSize) = toRead
        at hrun ⊢
      have hbounds : 1 ≤ toRead ∧ toRead ≤ 32768 ∧ toRead ≤ remaining := by
        rw [← htr]
        unfold bufferSize
        split <;> omega
      have hr3 := hcontract i file.cursor toRead hbounds.1
      generalize env.read i file.cursor toRead = r at hrun hr3 ⊢
      by_cases hr2 : 1 ≤ r.n
      · rw [if_pos hr2] at hrun
        obtain ⟨hr1, hwf, hrec⟩ := hrun
        rw [if_neg (by rw [hr1]; decide), if_neg (by omega), if_neg (by rw [hwf]; simp)]
        have hlt : (remaining - (r.n : Int)).toNat < m := by omega
        obtain ⟨cs, h1, h2, h3, h4, h5⟩ := ih _ hlt
          { content := file.content, cursor := file.cursor + (r.n : Int) }
          (remaining - (r.n : Int)) (i + 1)
          { chunks := acc.chunks ++
              [{ offset := file.cursor, data := fileBytes file.content file.cursor r.n }],
            waits := acc.waits, reads := acc.reads + 1, writes := acc.writes + 1,
            now := acc.now, reason := acc.reason } rfl hrec
        refine ⟨{ offset := file.cursor, data := fileBytes file.content file.cursor r.n } :: cs,
          ?_, h2, ?_, ?_, ?_⟩
        · rw [h1]; simp
        · refine ⟨rfl, ?_⟩
          simp only [fileBytes_length]
          exact h3
        · intro c hc
          rcases List.mem_cons.mp hc with hc | hc
          · rw [hc]
            simp only [fileBytes_length]
            omega
          · exact h4 c hc
        · have hsum : m = r.n + (remaining - (r.n : Int)).toNat := by omega
          simp only [List.map_cons, List.flatten_cons, h5]
          rw [hsum, fileBytes_add]
      · rw [if_neg hr2] at hrun
        exact absurd hrun (fun h => h)
    · rw [if_neg hrem]
      have hm0 : m = 0 := by omega
      subst hm0
      exact ⟨[], by simp, rfl, trivial, by simp, by simp [fileBytes]⟩

/-- Contiguous non-empty chunks have strictly increasing offsets, none before
the starting position. -/
theorem contiguous_offsets_increasing : ∀ (cs : List Chunk) (pos : Int),
    contiguousFrom pos cs → (∀ c ∈ cs, 1 ≤ c.data.length) →
    (∀ c ∈ cs, pos ≤ c.offset) ∧ cs.Pairwise (fun a b => a.offset < b.offset) := by
  intro cs
  induction cs with
  | nil => intro pos _ _; simp
  | cons c cs ih =>
    intro pos hcont hlen
    obtain ⟨hoff, hrest⟩ := hcont
    have hc := hlen c (List.mem_cons_self _ _)
    obtain ⟨hge, hpw⟩ := ih (pos + c.data.length) hrest
      (fun d hd => hlen d (List.mem_cons_of_mem _ hd))
    constructor
    · intro d hd
      rcases List.mem_cons.mp hd with hd | hd
      · rw [hd, hoff]
      · have := hge d hd
        omega
    · rw [List.pairwise_cons]
      refine ⟨?_, hpw⟩
      intro d hd
      have := hge d hd
      omega

/-- Contiguous chunks from `pos` all lie between `pos` and `pos` plus the number
of bytes written. -/
theorem contiguous_within : ∀ (cs : List Chunk) (pos : Int), contiguousFrom pos cs →
    ∀ c ∈ cs, pos ≤ c.offset ∧
      c.offset + c.data.length ≤ pos + ((cs.map Chunk.data).flatten.length : Nat) := by
  intro cs
  induction cs with
  | nil => intro pos _ c hc; simp at hc
  | cons d ds ih =>
    intro pos hcont c hc
    obtain ⟨hoff, hrest⟩ := hcont
    simp only [List.map_cons, List.flatten_cons, List.length_append]
    rcases List.mem_cons.mp hc with hc | hc
    · rw [hc, hoff]
      push_cast
      omega
    · have := ih (pos + d.data.length) hrest c hc
      push_cast at this ⊢
      omega

/-- With every piece complete at all times, every availability wait succeeds. -/
theorem wait_ok_of_all_complete (tf : TorrentFile)
    (h : ∀ (time : Nat) (i : Int), tf.torrent.complete time i = true) (now : Nat)
    (position length : Int) : (waitForDataAvailable tf now position length).ok = true := by
  unfold waitForDataAvailable
  simp only []
  rw [waitLoop, if_pos (by decide)]
  have hscan : ∀ c idx, scanPieces tf.torrent (now + 0) c idx = none := by
    intro c idx
    rw [scanPieces_eq_none_iff]
    intro i _ _ _
    exact h _ i
  simp only [hscan]

/-- A span whose pieces below `NumPieces()` are complete at the time of the call
makes `waitForDataAvailable` return `true` in its first poll. -/
theorem wait_at_once_of_span_complete (tf : TorrentFile) (now : Nat) (position length : Int)
    (hpl : 0 < tf.torrent.pieceLength) (hpos : 0 ≤ position) (hlen : 1 ≤ length)
    (hcomplete : ∀ i : Int, position / tf.torrent.pieceLength ≤ i →
      i ≤ (position + length - 1) / tf.torrent.pieceLength → i < tf.torrent.numPieces →
      tf.torrent.complete now i = true) :
    waitForDataAvailable tf now position length =
      { ok := true, polls := 1, sleeps := 0, prioritized := [], elapsed := 0 } := by
  have hs : Int.tdiv position tf.torrent.pieceLength = position / tf.torrent.pieceLength :=
    Int.tdiv_eq_ediv hpos (by omega)
  have he : Int.tdiv (position + length - 1) tf.torrent.pieceLength
      = (position + length - 1) / tf.torrent.pieceLength :=
    Int.tdiv_eq_ediv (by omega) (by omega)
  have hscan : scanPieces tf.torrent now
      ((position + length - 1) / tf.torrent.pieceLength - position / tf.torrent.pieceLength
        + 1).toNat (position / tf.torrent.pieceLength) = none := by
    rw [scanPieces_eq_none_iff]
    intro i h1 h2 h3
    exact hcomplete i h1 (by omega) h3
  unfold waitForDataAvailable
  simp only [hs, he]
  rw [waitLoop, if_pos (by decide)]
  simp only [Nat.add_zero, hscan]

/-- A run of the loop of `streamTorrentRange` succeeds in all its operations
when the pieces that hold the bytes still to send are complete, the reads inside
those bytes return at least one byte without error, the writes succeed and the
client stays connected; nothing is asked of the rest of the torrent or of reads
elsewhere. -/
theorem torrentRunSucceeds_of_range_ready (tf : TorrentFile) (env : Client)
    (hpl : 0 < tf.torrent.pieceLength) (hwrite : ∀ i, env.writeFails i = false)
    (hdisc : ∀ i, env.disconnected i = false) :
    ∀ (m : Nat) (remaining currentPos : Int) (i now : Nat),
      remaining.toNat = m → 0 ≤ currentPos →
      (∀ (time : Nat) (k : Int), currentPos / tf.torrent.pieceLength ≤ k →
        k ≤ (currentPos + remaining - 1) / tf.torrent.pieceLength → k < tf.torrent.numPieces →
        tf.torrent.complete time k = true) →
      (∀ (j : Nat) (p want : Int), currentPos ≤ p → p + want ≤ currentPos + remaining →
        1 ≤ want → (env.read j p want).err = ReadErr.nil ∧ 1 ≤ (env.read j p want).n) →
      torrentRunSucceeds tf env remaining currentPos i now := by
  intro m
  induction m using Nat.strong_induction_on with
  | _ m ih =>
    intro remaining currentPos i now hm hpos hpieces hreads
    rw [torrentRunSucceeds]
    by_cases hrem : 0 < remaining
    · rw [if_pos hrem]
      simp only []
      generalize htr : (if remaining < bufferSize then remaining else bufferSize) = toRead
      have hbounds : 1 ≤ toRead ∧ toRead ≤ remaining := by
        rw [← htr]
        unfold bufferSize
        split <;> omega
      have hw := wait_at_once_of_span_complete tf now currentPos toRead hpl hpos hbounds.1
        (fun k h1 h2 h3 => hpieces now k h1
          (le_trans h2 (Int.ediv_le_ediv hpl (by omega))) h3)
      obtain ⟨hr1, hr2⟩ := hreads i currentPos toRead (le_refl _) (by omega) hbounds.1
      rw [hw]
      generalize env.read i currentPos toRead = r at hr1 hr2 ⊢
      rw [if_pos hr2]
      refine ⟨rfl, hr1, hwrite i, hdisc i, ?_⟩
      apply ih (remaining - (r.n : Int)).toNat (by omega) _ _ _ _ rfl (by omega)
      · intro time k h1 h2 h3
        have hend : currentPos + (r.n : Int) + (remaining - (r.n : Int)) - 1
            = currentPos + remaining - 1 := by omega
        rw [hend] at h2
        exact hpieces time k (le_trans (Int.ediv_le_ediv hpl (by omega)) h1) h2 h3
      · intro j p want h1 h2 h3
        exact hreads j p want (by omega) (by omega) h3
    · rw [if_neg hrem]
      trivial

/-- A run of the loop of `streamRange` succeeds in all its operations when the
reads inside the bytes still to send return at least one byte without error and
the writes succeed. -/
theorem localRunSucceeds_of_range_ready (env : Client)
    (hwrite : ∀ i, env.writeFails i = false) :
    ∀ (m : Nat) (file : LocalFile) (remaining : Int) (i : Nat),
      remaining.toNat = m →
      (∀ (j : Nat) (p want : Int), file.cursor ≤ p → p + want ≤ file.cursor + remaining →
        1 ≤ want → (env.read j p want).err = ReadErr.nil ∧ 1 ≤ (env.read j p want).n) →
      localRunSucceeds file env remaining i := by
  intro m
  induction m using Nat.strong_induction_on with
  | _ m ih =>
    intro file remaining i hm hreads
    rw [localRunSucceeds]
    by_cases hrem : 0 < remaining
    · rw [if_pos hrem]
      simp only []
      generalize htr : (if remaining < bufferSize then remaining else bufferSize) = toRead
      have hbounds : 1 ≤ toRead ∧ toRead ≤ remaining := by
        rw [← htr]
        unfold bufferSize
        split <;> omega
      obtain ⟨hr1, hr2⟩ := hreads i file.cursor toRead (le_refl _) (by omega) hbounds.1
      generalize env.read i file.cursor toRead = r at hr1 hr2 ⊢
      rw [if_pos hr2]
      refine ⟨hr1, hwrite i, ?_⟩
      apply ih (remaining - (r.n : Int)).toNat (by omega) _ _ _ rfl
      intro j p want h1 h2 h3
      exact hreads j p want (by simp only [] at h1; omega) (by simp only [] at h2; omega) h3
    · rw [if_neg hrem]
      trivial

/-- C8: over an accepted range `[start, end_]` of a file of size `total`, with
reads that respect the `io.Reader` count contract, a run of `streamTorrentRange`
(and of `streamRange` for a local file) in which every availability wait it
issues succeeds, every read it issues returns at least one byte without error,
every write succeeds and no disconnect check finds the client gone ends normally
having written exactly the `end_-start+1` file bytes of the range, in chunks of 1
to 32768 bytes that lie inside the file, are contiguous from `start` and have
strictly increasing offsets. Nothing is assumed of waits or reads the run does
not issue. -/
theorem stream_delivers_whole_range (tf : TorrentFile) (file : LocalFile) (env : Client)
    (now : Nat) (total start end_ : Int)
    (h0 : 0 ≤ start) (hse : start ≤ end_) (het : end_ < total)
    (hcursor : file.cursor = start) (hcontract : readsWithinRequest env) :
    (torrentRunSucceeds tf env (end_ - start + 1) start 0 now →
      (streamTorrentRange tf env now start (end_ - start + 1)).reason = StopReason.completed ∧
      (((streamTorrentRange tf env now start (end_ - start + 1)).chunks.map Chunk.data).flatten
        = fileBytes tf.content start (end_ - start + 1).toNat) ∧
      ((((streamTorrentRange tf env now start (end_ - start + 1)).chunks.map Chunk.data).flatten.length
        : Nat) : Int) = end_ - start + 1 ∧
      (∀ c ∈ (streamTorrentRange tf env now start (end_ - start + 1)).chunks,
        1 ≤ c.data.length ∧ c.data.length ≤ 32768 ∧ 0 ≤ c.offset ∧
          c.offset + c.data.length ≤ total) ∧
      contiguousFrom start (streamTorrentRange tf env now start (end_ - start + 1)).chunks ∧
      (streamTorrentRange tf env now start (end_ - start + 1)).chunks.Pairwise
        (fun a b => a.offset < b.offset)) ∧
    (localRunSucceeds file env (end_ - start + 1) 0 →
      (streamRange file env (end_ - start + 1)).reason = StopReason.completed ∧
      (((streamRange file env (end_ - start + 1)).chunks.map Chunk.data).flatten
        = fileBytes file.content start (end_ - start + 1).toNat) ∧
      ((((streamRange file env (end_ - start + 1)).chunks.map Chunk.data).flatten.length
        : Nat) : Int) = end_ - start + 1 ∧
      (∀ c ∈ (streamRange file env (end_ - start + 1)).chunks,
        1 ≤ c.data.length ∧ c.data.length ≤ 32768 ∧ 0 ≤ c.offset ∧
          c.offset + c.data.length ≤ total) ∧
      contiguousFrom start (streamRange file env (end_ - start + 1)).chunks ∧
      (streamRange file env (end_ - start + 1)).chunks.Pairwise
        (fun a b => a.offset < b.offset)) := by
  constructor
  · intro hrun
    obtain ⟨cs, h1, h2, h3, h4, h5⟩ := streamTorrentLoop_delivers tf env hcontract
      (end_ - start + 1).toNat (end_ - start + 1) start 0
      { chunks := [], waits := 0, reads := 0, writes := 0, now := now,
        reason := StopReason.completed } rfl hrun
    unfold streamTorrentRange
    rw [h1] at *
    simp only [List.nil_append] at *
    have hlen : (((cs.map Chunk.data).flatten.length : Nat) : Int) = end_ - start + 1 := by
      rw [h5, fileBytes_length]; omega
    refine ⟨h2, h5, hlen, ?_, h3, ?_⟩
    · intro c hc
      have hin := contiguous_within cs start h3 c hc
      exact ⟨(h4 c hc).1, (h4 c hc).2, by omega, by omega⟩
    · exact (contiguous_offsets_increasing cs start h3 (fun c hc => (h4 c hc).1)).2
  · intro hrun
    obtain ⟨cs, h1, h2, h3, h4, h5⟩ := streamRangeLoop_delivers env hcontract
      (end_ - start + 1).toNat file (end_ - start + 1) 0
      { chunks := [], waits := 0, reads := 0, writes := 0, now := 0,
        reason := StopReason.completed } rfl hrun
    unfold streamRange
    rw [hcursor] at h3 h5
    rw [h1] at *
    simp only [List.nil_append] at *
    have hlen : (((cs.map Chunk.data).flatten.length : Nat) : Int) = end_ - start + 1 := by
      rw [h5, fileBytes_length]; omega
    refine ⟨h2, h5, hlen, ?_, h3, ?_⟩
    · intro c hc
      have hin := contiguous_within cs start h3 c hc
      exact ⟨(h4 c hc).1, (h4 c hc).2, by omega, by omega⟩
    · exact (contiguous_offsets_increasing cs start h3 (fun c hc => (h4 c hc).1)).2

theorem finiteClient_readsWithinRequest : readsWithinRequest finiteClient := by
  intro i pos want hw
  show (((if pos < 100000 then
      ({ n := min want.toNat (100000 - pos).toNat, err := ReadErr.nil } : ReadResult)
    else { n := 0, err := ReadErr.eof }).n : Nat) : Int) ≤ want
  by_cases hp : pos < 100000
  · rw [if_pos hp]
    show ((min want.toNat (100000 - pos).toNat : Nat) : Int) ≤ want
    omega
  · rw [if_neg hp]
    show ((0 : Nat) : Int) ≤ want
    omega

/-- Inside the file every read of the finite reader returns at least one byte
without error. -/
theorem finiteClient_reads_inside (j : Nat) (p want : Int) (hp : p < 100000) (hw : 1 ≤ want) :
    (finiteClient.read j p want).err = ReadErr.nil ∧ 1 ≤ (finiteClient.read j p want).n := by
  show (if p < 100000 then
      ({ n := min want.toNat (100000 - p).toNat, err := ReadErr.nil } : ReadResult)
    else { n := 0, err := ReadErr.eof }).err = ReadErr.nil ∧
    1 ≤ (if p < 100000 then
      ({ n := min want.toNat (100000 - p).toNat, err := ReadErr.nil } : ReadResult)
    else { n := 0, err := ReadErr.eof }).n
  rw [if_pos hp]
  refine ⟨rfl, ?_⟩
  show 1 ≤ min want.toNat (100000 - p).toNat
  omega

/-- The run over the bytes `[500, 49999]` of the partly downloaded torrent
issues only operations that succeed: these bytes lie in the complete pieces 0
to 3. -/
theorem partialFile_run_succeeds :
    torrentRunSucceeds partialFile finiteClient (49999 - 500 + 1) 500 0 0 := by
  apply torrentRunSucceeds_of_range_ready partialFile finiteClient (by decide) (fun _ => rfl)
    (fun _ => rfl) _ (49999 - 500 + 1) 500 0 0 rfl (by decide)
  · intro time k _ h2 _
    have hdiv : (500 + (49999 - 500 + 1) - 1 : Int) / partialFile.torrent.pieceLength = 3 := by
      decide
    rw [hdiv] at h2
    exact decide_eq_true (by omega)
  · intro j p want h1 h2 h3
    exact finiteClient_reads_inside j p want (by omega) h3

theorem localFileAt500_run_succeeds :
    localRunSucceeds localFileAt500 finiteClient (49999 - 500 + 1) 0 := by
  apply localRunSucceeds_of_range_ready finiteClient (fun _ => rfl) _ localFileAt500
    (49999 - 500 + 1) 0 rfl
  intro j p want h1 h2 h3
  have h1' : (500 : Int) ≤ p := h1
  have h2' : p + want ≤ 500 + (49999 - 500 + 1) := h2
  exact finiteClient_reads_inside j p want (by omega) h3

theorem stream_delivers_whole_range_witness :
    (streamTorrentRange partialFile finiteClient 0 500 (49999 - 500 + 1)).reason
      = StopReason.completed ∧
    ((((streamTorrentRange partialFile finiteClient 0 500 (49999 - 500 + 1)).chunks.map
      Chunk.data).flatten.length : Nat) : Int) = 49999 - 500 + 1 ∧
    (streamRange localFileAt500 finiteClient (49999 - 500 + 1)).reason = StopReason.completed ∧
    ((((streamRange localFileAt500 finiteClient (49999 - 500 + 1)).chunks.map
      Chunk.data).flatten.length : Nat) : Int) = 49999 - 500 + 1 :=
  have h := stream_delivers_whole_range partialFile localFileAt500 finiteClient 0 100000 500 49999
    (by decide) (by decide) (by decide) rfl finiteClient_readsWithinRequest
  have ht := h.1 partialFile_run_succeeds
  have hl := h.2 localFileAt500_run_succeeds
  ⟨ht.1, ht.2.2.1, hl.1, hl.2.2.1⟩

/-! ## Playability -/

/-- The code's rule: playable exactly when at least 5 MiB are downloaded, or the
progress comparison holds and strictly more than 1 MiB is downloaded. -/
theorem playable_iff (downloaded : Int) (progressReached : Bool) :
    playable downloaded progressReached = true ↔
      downloaded ≥ 5 * 1024 * 1024 ∨ (progressReached = true ∧ downloaded > 1024 * 1024) := by
  simp [playable]

/-- C7: with exactly 1 MiB of a 2 MiB file downloaded (progress 50 %), the rule
`downloaded ≥ 5 MiB ∨ (progress ≥ 5 ∧ downloaded ≥ 1 MiB)` holds, but the flag
computed by the code is `false`, whatever the progress comparison gives. -/
theorem playable_false_at_one_mebibyte :
    (∀ progressReached : Bool, playable (1024 * 1024) progressReached = false) ∧
    ((1024 * 1024 : Int) ≥ 5 * 1024 * 1024 ∨
      ((1024 * 1024 : ℚ) / (2 * 1024 * 1024) * 100 ≥ 5 ∧ (1024 * 1024 : Int) ≥ 1024 * 1024)) := by
  refine ⟨by decide, Or.inr ⟨by norm_num, by decide⟩⟩

/-! ## Download registry -/

theorem Registry.set_same (torrents : Registry) (hash : String) (status : TorrentStatus) :
    (torrents.set hash status) hash = some status := by
  simp [Registry.set]

theorem Registry.set_other (torrents : Registry) (hash h : String) (status : TorrentStatus)
    (hne : h ≠ hash) : (torrents.set hash status) h = torrents h := by
  simp [Registry.set, hne]

/-- A goroutine that is still waiting for the metadata, or still monitoring,
writes its status whatever the entry holds: the metadata timeout turns a
cancelled entry into a timed-out one and a tick turns it into a downloading
one. -/
theorem running_goroutine_overwrites_cancelled :
    ((handleTorrent (registryWith statusCancelled) "abc" GoroutinePhase.awaitingInfo
        GoroutineEvent.infoTimeout).2 "abc").map TorrentStatus.Status = some statusTimedOut ∧
    ((handleTorrent (registryWith statusCancelled) "abc" GoroutinePhase.monitoring
        (GoroutineEvent.tick 5 false)).2 "abc").map TorrentStatus.Status
      = some statusDownloading := by
  decide

/-- C11 (as stated, refuted): `CancelDownload` on an entry whose status is
Completed succeeds and leaves it Cancelled, so Completed is not terminal and
cancel is not limited to downloading or metadata-pending entries. -/
theorem completed_entry_gets_cancelled :
    (registryWith statusCompleted "abc").map TorrentStatus.Status = some "下载完成" ∧
    (match CancelDownload (registryWith statusCompleted) "abc" with
      | Except.ok torrents => (torrents "abc").map TorrentStatus.Status
      | Except.error _ => none) = some "已取消" := by
  decide

/-- C11 (amended): `CancelDownload` does not look at the status: it moves an
existing entry to Cancelled from every status, Completed included, marks its
torrent dropped and leaves the other entries alone (a Cancelled entry stays
Cancelled); for an unknown hash it fails. Completed is terminal for the entry's
own goroutine: the tick that finds the torrent complete writes Completed and
ends `monitorProgress`, the close of the torrent ends it without a write, and a
returned goroutine writes nothing. -/
theorem cancel_unconditional_completed_ends_monitor (torrents : Registry) (hash : String)
    (status : TorrentStatus) (hex : torrents hash = some status) :
    (∃ torrents1 : Registry, CancelDownload torrents hash = Except.ok torrents1 ∧
      torrents1 hash = some { status with dropped := true, Status := statusCancelled } ∧
      (∀ h, h ≠ hash → torrents1 h = torrents h) ∧
      ∃ torrents2 : Registry, CancelDownload torrents1 hash = Except.ok torrents2 ∧
        (torrents2 hash).map TorrentStatus.Status = some statusCancelled) ∧
    (∀ unknown : String, torrents unknown = none →
      CancelDownload torrents unknown = Except.error "下载任务不存在") ∧
    (∀ bytesCompleted : Int,
      handleTorrent torrents hash GoroutinePhase.monitoring
          (GoroutineEvent.tick bytesCompleted true) =
        (GoroutinePhase.finished,
          torrents.set hash { status with Downloaded := bytesCompleted, Status := statusCompleted })) ∧
    handleTorrent torrents hash GoroutinePhase.monitoring GoroutineEvent.closed
      = (GoroutinePhase.finished, torrents) ∧
    (∀ ev : GoroutineEvent,
      handleTorrent torrents hash GoroutinePhase.finished ev = (GoroutinePhase.finished, torrents)) := by
  refine ⟨?_, ?_, ?_, ?_, ?_⟩
  · refine ⟨torrents.set hash { status with dropped := true, Status := statusCancelled },
      ?_, Registry.set_same _ _ _, fun h hne => Registry.set_other _ _ _ _ hne, ?_⟩
    · simp only [CancelDownload, hex]
    · refine ⟨(torrents.set hash { status with dropped := true, Status := statusCancelled }).set
        hash { status with dropped := true, Status := statusCancelled }, ?_, ?_⟩
      · simp only [CancelDownload, Registry.set_same]
      · simp only [Registry.set_same, Option.map_some']
  · intro unknown hnone
    simp only [CancelDownload, hnone]
  · intro bytesCompleted
    simp only [handleTorrent, monitorProgress, hex, if_true]
  · rfl
  · intro ev
    rfl

theorem cancel_unconditional_completed_ends_monitor_witness :
    (∃ torrents1 : Registry,
      CancelDownload (registryWith statusCompleted) "abc" = Except.ok torrents1 ∧
      torrents1 "abc" = some { Name := "movie", Status := statusCancelled, Downloaded := 10,
                               Total := 10, dropped := true } ∧
      (∀ h, h ≠ "abc" → torrents1 h = registryWith statusCompleted h) ∧
      ∃ torrents2 : Registry, CancelDownload torrents1 "abc" = Except.ok torrents2 ∧
        (torrents2 "abc").map TorrentStatus.Status = some statusCancelled) ∧
    handleTorrent (registryWith statusDownloading) "abc" GoroutinePhase.monitoring
        (GoroutineEvent.tick 10 true) =
      (GoroutinePhase.finished,
        (registryWith statusDownloading).set "abc"
          { Name := "movie", Status := statusCompleted, Downloaded := 10, Total := 10,
            dropped := false }) :=
  ⟨(cancel_unconditional_completed_ends_monitor (registryWith statusCompleted) "abc"
      { Name := "movie", Status := statusCompleted, Downloaded := 10, Total := 10,
        dropped := false } rfl).1,
   (cancel_unconditional_completed_ends_monitor (registryWith statusDownloading) "abc"
      { Name := "movie", Status := statusDownloading, Downloaded := 10, Total := 10,
        dropped := false } rfl).2.2.1 10⟩

/-! ## Piece spans and polls -/

/-- C14: for a positive piece length, a position `≥ 0` and a length `≥ 1`, the
span computed by `waitForDataAvailable` and `isTorrentPositionPlayable` is
`startPiece = ⌊position / pieceLength⌋` and
`endPiece = ⌊(position + length - 1) / pieceLength⌋`, with
`startPiece ≤ endPiece`, and both functions scan exactly that span. -/
theorem piece_span_is_floor (tf : TorrentFile) (now : Nat) (position length : Int)
    (hpl : 0 < tf.torrent.pieceLength) (hpos : 0 ≤ position) (hlen : 1 ≤ length) :
    startPieceOf tf.torrent.pieceLength position = position / tf.torrent.pieceLength ∧
    endPieceOf tf.torrent.pieceLength position length
      = (position + length - 1) / tf.torrent.pieceLength ∧
    (startPieceOf tf.torrent.pieceLength position * tf.torrent.pieceLength ≤ position ∧
      position < (startPieceOf tf.torrent.pieceLength position + 1) * tf.torrent.pieceLength) ∧
    (endPieceOf tf.torrent.pieceLength position length * tf.torrent.pieceLength
        ≤ position + length - 1 ∧
      position + length - 1
        < (endPieceOf tf.torrent.pieceLength position length + 1) * tf.torrent.pieceLength) ∧
    startPieceOf tf.torrent.pieceLength position
      ≤ endPieceOf tf.torrent.pieceLength position length ∧
    waitForDataAvailable tf now position length =
      waitLoop tf.torrent now (startPieceOf tf.torrent.pieceLength position)
        (endPieceOf tf.torrent.pieceLength position length)
        { ok := false, polls := 0, sleeps := 0, prioritized := [], elapsed := 0 } ∧
    isTorrentPositionPlayable tf now position length =
      playableScan tf.torrent now
        (endPieceOf tf.torrent.pieceLength position length
          - startPieceOf tf.torrent.pieceLength position + 1).toNat
        (startPieceOf tf.torrent.pieceLength position) := by
  have hs : startPieceOf tf.torrent.pieceLength position = position / tf.torrent.pieceLength :=
    Int.tdiv_eq_ediv hpos (by omega)
  have he : endPieceOf tf.torrent.pieceLength position length
      = (position + length - 1) / tf.torrent.pieceLength :=
    Int.tdiv_eq_ediv (by omega) (by omega)
  have hne : tf.torrent.pieceLength ≠ 0 := by omega
  refine ⟨hs, he, ?_, ?_, ?_, rfl, rfl⟩
  · rw [hs]
    exact ⟨Int.ediv_mul_le _ hne, Int.lt_ediv_add_one_mul_self _ hpl⟩
  · rw [he]
    exact ⟨Int.ediv_mul_le _ hne, Int.lt_ediv_add_one_mul_self _ hpl⟩
  · rw [hs, he]
    exact Int.ediv_le_ediv hpl (by omega)

theorem piece_span_is_floor_witness :
    startPieceOf 16384 50000 = 3 ∧ endPieceOf 16384 50000 1000 = 3 ∧
    waitForDataAvailable completeFile 0 50000 1000 =
      waitLoop completeFile.torrent 0 3 3
        { ok := false, polls := 0, sleeps := 0, prioritized := [], elapsed := 0 } :=
  have h := piece_span_is_floor completeFile 0 50000 1000 (by decide) (by decide) (by decide)
  ⟨h.1.trans (by decide), h.2.1.trans (by decide), h.2.2.2.2.2.1⟩

/-- The scan calls `SetPriority` on `p` exactly when `p` is the lowest incomplete
piece of the span below `NumPieces()`. -/
theorem scanPieces_eq_some_iff (t : Torrent) (now : Nat) (p : Int) : ∀ (count : Nat) (idx : Int),
    scanPieces t now count idx = some p ↔
      idx ≤ p ∧ p < idx + count ∧ p < t.numPieces ∧ t.complete now p = false ∧
        ∀ i : Int, idx ≤ i → i < p → t.complete now i = true := by
  intro count
  induction count with
  | zero =>
    intro idx
    constructor
    · intro h
      simp only [scanPieces] at h
      cases h
    · rintro ⟨h1, h2, _⟩
      have : ((0 : Nat) : Int) = 0 := rfl
      omega
  | succ n ih =>
    intro idx
    simp only [scanPieces]
    by_cases hnum : idx ≥ t.numPieces
    · rw [if_pos hnum]
      constructor
      · intro h
        cases h
      · rintro ⟨h1, _, h3, _⟩
        omega
    · rw [if_neg hnum]
      by_cases hc : t.complete now idx = true
      · have hc' : ¬ ¬ t.complete now idx = true := fun h => h hc
        rw [if_neg hc', ih (idx + 1)]
        constructor
        · rintro ⟨h1, h2, h3, h4, h5⟩
          refine ⟨by omega, by push_cast at h2 ⊢; omega, h3, h4, ?_⟩
          intro i hi1 hi2
          by_cases hi : i = idx
          · rw [hi]; exact hc
          · exact h5 i (by omega) hi2
        · rintro ⟨h1, h2, h3, h4, h5⟩
          have hne : p ≠ idx := by
            intro hp
            rw [hp, hc] at h4
            cases h4
          refine ⟨by omega, by push_cast at h2 ⊢; omega, h3, h4, ?_⟩
          intro i hi1 hi2
          exact h5 i (by omega) hi2
      · rw [if_pos hc]
        have hcf : t.complete now idx = false := by
          cases hv : t.complete now idx with
          | true => exact absurd hv hc
          | false => rfl
        constructor
        · intro h
          have hp : idx = p := Option.some.inj h
          subst hp
          refine ⟨le_refl _, by push_cast; omega, by omega, hcf, ?_⟩
          intro i hi1 hi2
          omega
        · rintro ⟨h1, _, _, _, h5⟩
          by_cases hp : p = idx
          · rw [hp]
          · have := h5 idx (le_refl _) (by omega)
            rw [hcf] at this
            cases this

/-- C15: in a poll of `waitForDataAvailable` (an iteration of its outer loop,
entered with `time.Since(startTime) < maxWaitTime`) the scan calls `SetPriority`
on a piece `p` exactly when `p` is the lowest-indexed incomplete piece of the
span `[startPiece, endPiece]` below `NumPieces()`; with such a piece the poll
records that one call, sleeps `checkInterval` and goes on polling, and without
one it returns `true` at once with no call. -/
theorem poll_prioritizes_lowest_incomplete (t : Torrent) (startTime : Nat)
    (startPiece endPiece : Int) (acc : WaitOutcome) (helapsed : acc.elapsed < maxWaitTime) :
    (∀ p : Int,
      scanPieces t (startTime + acc.elapsed) (endPiece - startPiece + 1).toNat startPiece = some p ↔
        startPiece ≤ p ∧ p ≤ endPiece ∧ p < t.numPieces ∧
          t.complete (startTime + acc.elapsed) p = false ∧
          ∀ i : Int, startPiece ≤ i → i < p → t.complete (startTime + acc.elapsed) i = true) ∧
    (∀ p : Int,
      scanPieces t (startTime + acc.elapsed) (endPiece - startPiece + 1).toNat startPiece = some p →
        waitLoop t startTime startPiece endPiece acc =
          waitLoop t startTime startPiece endPiece
            { ok := acc.ok, polls := acc.polls + 1, sleeps := acc.sleeps + 1,
              prioritized := acc.prioritized ++ [p],
              elapsed := acc.elapsed + checkInterval }) ∧
    ((∃ k : Int, startPiece ≤ k ∧ k ≤ endPiece ∧ k < t.numPieces ∧
        t.complete (startTime + acc.elapsed) k = false) →
      ∃ p : Int,
        scanPieces t (startTime + acc.elapsed) (endPiece - startPiece + 1).toNat startPiece
          = some p) ∧
    ((waitLoop t startTime startPiece endPiece acc =
        { ok := true, polls := acc.polls + 1, sleeps := acc.sleeps,
          prioritized := acc.prioritized, elapsed := acc.elapsed } ∧
      scanPieces t (startTime + acc.elapsed) (endPiece - startPiece + 1).toNat startPiece = none) ↔
      ∀ k : Int, startPiece ≤ k → k ≤ endPiece → k < t.numPieces →
        t.complete (startTime + acc.elapsed) k = true) := by
  refine ⟨?_, ?_, ?_, ?_⟩
  · intro p
    rw [scanPieces_eq_some_iff]
    constructor
    · rintro ⟨h1, h2, h3, h4, h5⟩
      exact ⟨h1, by omega, h3, h4, h5⟩
    · rintro ⟨h1, h2, h3, h4, h5⟩
      exact ⟨h1, by omega, h3, h4, h5⟩
  · intro p hp
    rw [waitLoop, if_pos helapsed, hp]
  · rintro ⟨k, h1, h2, h3, h4⟩
    exact scanPieces_isSome t _ _ _ k h1 (by omega) h3 h4
  · constructor
    · rintro ⟨_, hnone⟩ k h1 h2 h3
      exact (scanPieces_eq_none_iff t _ _ _).mp hnone k h1 (by omega) h3
    · intro hall
      have hnone : scanPieces t (startTime + acc.elapsed) (endPiece - startPiece + 1).toNat
          startPiece = none := by
        rw [scanPieces_eq_none_iff]
        intro i h1 h2 h3
        exact hall i h1 (by omega) h3
      refine ⟨?_, hnone⟩
      rw [waitLoop, if_pos helapsed, hnone]

theorem poll_prioritizes_lowest_incomplete_witness :
    scanPieces secondFile.torrent (0 + 0) (6 - 3 + 1 : Int).toNat 3 = some 5 ∧
    waitLoop secondFile.torrent 0 3 6
        { ok := false, polls := 0, sleeps := 0, prioritized := [], elapsed := 0 } =
      waitLoop secondFile.torrent 0 3 6
        { ok := false, polls := 0 + 1, sleeps := 0 + 1, prioritized := [] ++ [5],
          elapsed := 0 + checkInterval } :=
  have h := poll_prioritizes_lowest_incomplete secondFile.torrent 0 3 6
    { ok := false, polls := 0, sleeps := 0, prioritized := [], elapsed := 0 } (by decide)
  have hs := (h.1 5).mpr
    ⟨by decide, by decide, by decide, by decide, fun _ _ hi => decide_eq_true hi⟩
  ⟨hs, h.2.1 5 hs⟩

/-! ## The waiter and the file offset -/

/-- A successful wait ends on a poll whose scan found every piece of the span
below `NumPieces()` complete. -/
theorem waitLoop_ok_last_scan (t : Torrent) (startTime : Nat) (startPiece endPiece : Int) :
    ∀ (m : Nat) (acc : WaitOutcome), maxWaitTime - acc.elapsed = m →
      (waitLoop t startTime startPiece endPiece acc).ok = true →
      scanPieces t (startTime + (waitLoop t startTime startPiece endPiece acc).elapsed)
        (endPiece - startPiece + 1).toNat startPiece = none := by
  intro m
  induction m using Nat.strong_induction_on with
  | _ m ih =>
    intro acc hm
    rw [waitLoop]
    by_cases hel : acc.elapsed < maxWaitTime
    · rw [if_pos hel]
      cases hscan : scanPieces t (startTime + acc.elapsed) (endPiece - startPiece + 1).toNat
          startPiece with
      | none =>
        intro _
        exact hscan
      | some p =>
        simp only []
        exact ih (maxWaitTime - (acc.elapsed + checkInterval))
          (by simp only [checkInterval]; omega) _ rfl
    · rw [if_neg hel]
      intro h
      cases h

/-- For a file that begins at torrent offset 0, a successful wait has seen, in
its last poll, every piece below `NumPieces()` that holds a byte of the
requested range complete. -/
theorem wait_ok_covers_range_at_offset_zero (tf : TorrentFile) (now : Nat)
    (position length : Int) (hoff : tf.offset = 0)
    (hpl : 0 < tf.torrent.pieceLength) (hpos : 0 ≤ position) (hlen : 1 ≤ length)
    (hok : (waitForDataAvailable tf now position length).ok = true) :
    ∀ i : Int, (tf.offset + position) / tf.torrent.pieceLength ≤ i →
      i ≤ (tf.offset + position + length - 1) / tf.torrent.pieceLength →
      i < tf.torrent.numPieces →
      tf.torrent.complete (now + (waitForDataAvailable tf now position length).elapsed) i
        = true := by
  have hs : Int.tdiv position tf.torrent.pieceLength = position / tf.torrent.pieceLength :=
    Int.tdiv_eq_ediv hpos (by omega)
  have he : Int.tdiv (position + length - 1) tf.torrent.pieceLength
      = (position + length - 1) / tf.torrent.pieceLength :=
    Int.tdiv_eq_ediv (by omega) (by omega)
  unfold waitForDataAvailable at hok ⊢
  simp only [hs, he] at hok ⊢
  have hscan := waitLoop_ok_last_scan tf.torrent now _ _ _ _ rfl hok
  rw [scanPieces_eq_none_iff] at hscan
  intro i h1 h2 h3
  rw [hoff] at h1 h2
  simp only [zero_add] at h1 h2
  exact hscan i h1 (by omega) h3

/-- C16: for the second file of a two-file torrent, which begins at torrent
offset 81920, `waitForDataAvailable(file, 0, 1000)` returns `true` in its first
poll, although piece 5, the piece that holds the file bytes `[0, 1000)`, is
incomplete: the waiter looked at piece 0. -/
theorem wait_ignores_file_offset :
    waitForDataAvailable secondFile 0 0 1000 =
      { ok := true, polls := 1, sleeps := 0, prioritized := [], elapsed := 0 } ∧
    (secondFile.offset + 0) / secondFile.torrent.pieceLength = 5 ∧
    (secondFile.offset + 0 + 1000 - 1) / secondFile.torrent.pieceLength = 5 ∧
    5 < secondFile.torrent.numPieces ∧
    secondFile.torrent.complete 0 5 = false ∧
    startPieceOf secondFile.torrent.pieceLength 0 = 0 ∧
    endPieceOf secondFile.torrent.pieceLength 0 1000 = 0 := by
  refine ⟨?_, by decide, by decide, by decide, by decide, by decide, by decide⟩
  unfold waitForDataAvailable
  simp only []
  rw [waitLoop, if_pos (by decide)]
  have hscan : scanPieces secondFile.torrent (0 + 0)
      (Int.tdiv (0 + 1000 - 1) secondFile.torrent.pieceLength
        - Int.tdiv 0 secondFile.torrent.pieceLength + 1).toNat
      (Int.tdiv 0 secondFile.torrent.pieceLength) = none := by decide
  rw [hscan]

/-! ## The two range handlers -/

/-- C17: for every header string and every file size, `handleRangeRequest` and
`handleTorrentRangeRequest` give the same response: the same status, the same
`Content-Range` and `Content-Length` and the same `(start, contentLength)` passed
to the stream loop. -/
theorem range_handlers_agree (fileSize : Int) (rangeHeader : String) :
    handleRangeRequest fileSize rangeHeader = handleTorrentRangeRequest fileSize rangeHeader ∧
    (handleRangeRequest fileSize rangeHeader).status
      = (handleTorrentRangeRequest fileSize rangeHeader).status ∧
    (handleRangeRequest fileSize rangeHeader).contentRange
      = (handleTorrentRangeRequest fileSize rangeHeader).contentRange ∧
    (handleRangeRequest fileSize rangeHeader).contentLength
      = (handleTorrentRangeRequest fileSize rangeHeader).contentLength ∧
    (handleRangeRequest fileSize rangeHeader).stream
      = (handleTorrentRangeRequest fileSize rangeHeader).stream := by
  have h : handleRangeRequest fileSize rangeHeader
      = handleTorrentRangeRequest fileSize rangeHeader := by
    unfold handleRangeRequest handleTorrentRangeRequest
    rfl
  exact ⟨h, by rw [h], by rw [h], by rw [h], by rw [h]⟩

/-! ## How a stream loop ends -/

/-- The shape of every run of the loop of `streamTorrentRange` from its `i`-th
iteration: it completes `d` iterations (one wait, one read and one successful
write each); a disconnect signal set after one of these writes ends the run
right there; a run ended by the signal or by a failed wait has done nothing
after its last write, respectively after the failed wait. -/
theorem streamTorrentLoop_run (tf : TorrentFile) (env : Client) :
    ∀ (m : Nat) (remaining currentPos : Int) (i : Nat) (acc : StreamOutcome),
      remaining.toNat = m →
      ∃ d : Nat,
        (streamTorrentLoop tf env remaining currentPos i acc).writes = acc.writes + d ∧
        (∀ j, j < d → env.disconnected (i + j) = true →
          j + 1 = d ∧
          (streamTorrentLoop tf env remaining currentPos i acc).reason = StopReason.disconnected) ∧
        ((streamTorrentLoop tf env remaining currentPos i acc).reason = StopReason.disconnected →
          1 ≤ d ∧ env.disconnected (i + d - 1) = true ∧
          (streamTorrentLoop tf env remaining currentPos i acc).waits = acc.waits + d ∧
          (streamTorrentLoop tf env remaining currentPos i acc).reads = acc.reads + d ∧
          (streamTorrentLoop tf env remaining currentPos i acc).chunks.length
            = acc.chunks.length + d) ∧
        ((streamTorrentLoop tf env remaining currentPos i acc).reason = StopReason.waitTimeout →
          (streamTorrentLoop tf env remaining currentPos i acc).waits = acc.waits + d + 1 ∧
          (streamTorrentLoop tf env remaining currentPos i acc).reads = acc.reads + d ∧
          (streamTorrentLoop tf env remaining currentPos i acc).chunks.length
            = acc.chunks.length + d) := by
  intro m
  induction m using Nat.strong_induction_on with
  | _ m ih =>
    intro remaining currentPos i acc hm
    rw [streamTorrentLoop]
    by_cases hrem : 0 < remaining
    · rw [if_pos hrem]
      simp only []
      generalize (if remaining < bufferSize then remaining else bufferSize) = toRead
      generalize waitForDataAvailable tf acc.now currentPos toRead = w
      generalize hr : env.read i currentPos toRead = r
      by_cases hok : w.ok = true
      · rw [if_neg (not_not.mpr hok)]
        by_cases herr : r.err = ReadErr.other
        · rw [if_pos herr]
          exact ⟨0, rfl, fun j hj => absurd hj (Nat.not_lt_zero j), (fun h => by cases h),
            (fun h => by cases h)⟩
        · rw [if_neg herr]
          by_cases hn : r.n = 0
          · rw [if_pos hn]
            exact ⟨0, rfl, fun j hj => absurd hj (Nat.not_lt_zero j), (fun h => by cases h),
              (fun h => by cases h)⟩
          · rw [if_neg hn]
            by_cases hwf : env.writeFails i = true
            · rw [if_pos hwf]
              exact ⟨0, rfl, fun j hj => absurd hj (Nat.not_lt_zero j), (fun h => by cases h),
                (fun h => by cases h)⟩
            · rw [if_neg hwf]
              by_cases hd : env.disconnected i = true
              · rw [if_pos hd]
                refine ⟨1, rfl, ?_, ?_, (fun h => by cases h)⟩
                · intro j hj _
                  exact ⟨by omega, rfl⟩
                · intro _
                  refine ⟨le_refl 1, ?_, rfl, rfl, ?_⟩
                  · simpa using hd
                  · simp
              · rw [if_neg hd]
                have hlt : (remaining - (r.n : Int)).toNat < m := by omega
                obtain ⟨d, h1, h2, h3, h4⟩ := ih _ hlt (remaining - (r.n : Int))
                  (currentPos + (r.n : Int)) (i + 1)
                  { chunks := acc.chunks ++
                      [{ offset := currentPos, data := fileBytes tf.content currentPos r.n }],
                    waits := acc.waits + 1, reads := acc.reads + 1, writes := acc.writes + 1,
                    now := acc.now + w.elapsed, reason := acc.reason } rfl
                simp only [List.length_append, List.length_singleton] at h1 h3 h4
                refine ⟨d + 1, by rw [h1]; omega, ?_, ?_, ?_⟩
                · intro j hj hdj
                  cases j with
                  | zero => exact absurd hdj hd
                  | succ j' =>
                    have hidx : i + 1 + j' = i + (j' + 1) := by omega
                    obtain ⟨e1, e2⟩ := h2 j' (by omega) (by rw [hidx]; exact hdj)
                    exact ⟨by omega, e2⟩
                · intro hreason
                  obtain ⟨e1, e2, e3, e4, e5⟩ := h3 hreason
                  have hidx : i + 1 + d - 1 = i + (d + 1) - 1 := by omega
                  rw [hidx] at e2
                  exact ⟨by omega, e2, by rw [e3]; omega, by rw [e4]; omega, by rw [e5]; omega⟩
                · intro hreason
                  obtain ⟨e1, e2, e3⟩ := h4 hreason
                  exact ⟨by rw [e1]; omega, by rw [e2]; omega, by rw [e3]; omega⟩
      · rw [if_pos hok]
        exact ⟨0, rfl, fun j hj => absurd hj (Nat.not_lt_zero j), (fun h => by cases h),
          fun _ => ⟨rfl, rfl, rfl⟩⟩
    · rw [if_neg hrem]
      exact ⟨0, rfl, fun j hj => absurd hj (Nat.not_lt_zero j), (fun h => by cases h),
        (fun h => by cases h)⟩

/-- The shape of every run of the loop of `streamTorrentFile` from its `i`-th
iteration, as far as the disconnect signal goes. -/
theorem streamTorrentFileLoop_run (tf : TorrentFile) (env : Client) :
    ∀ (m : Nat) (currentPos : Int) (i : Nat) (acc : StreamOutcome),
      (tf.length - currentPos).toNat = m →
      ∃ d : Nat,
        (streamTorrentFileLoop tf env currentPos i acc).writes = acc.writes + d ∧
        (∀ j, j < d → env.disconnected (i + j) = true →
          j + 1 = d ∧
          (streamTorrentFileLoop tf env currentPos i acc).reason = StopReason.disconnected) ∧
        ((streamTorrentFileLoop tf env currentPos i acc).reason = StopReason.disconnected →
          1 ≤ d ∧ env.disconnected (i + d - 1) = true ∧
          (streamTorrentFileLoop tf env currentPos i acc).waits = acc.waits + d ∧
          (streamTorrentFileLoop tf env currentPos i acc).reads = acc.reads + d ∧
          (streamTorrentFileLoop tf env currentPos i acc).chunks.length
            = acc.chunks.length + d) := by
  intro m
  induction m using Nat.strong_induction_on with
  | _ m ih =>
    intro currentPos i acc hm
    rw [streamTorrentFileLoop]
    by_cases hrem : currentPos < tf.length
    · rw [if_pos hrem]
      simp only []
      generalize (if tf.length - currentPos < bufferSize then tf.length - currentPos
        else bufferSize) = toRead
      generalize waitForDataAvailable tf acc.now currentPos toRead = w
      generalize hr : env.read i currentPos toRead = r
      by_cases hok : w.ok = true
      · rw [if_neg (not_not.mpr hok)]
        by_cases herr : r.err = ReadErr.other
        · rw [if_pos herr]
          exact ⟨0, rfl, fun j hj => absurd hj (Nat.not_lt_zero j), (fun h => by cases h)⟩
        · rw [if_neg herr]
          by_cases hn : r.n = 0
          · rw [if_pos hn]
            exact ⟨0, rfl, fun j hj => absurd hj (Nat.not_lt_zero j), (fun h => by cases h)⟩
          · rw [if_neg hn]
            by_cases hwf : env.writeFails i = true
            · rw [if_pos hwf]
              exact ⟨0, rfl, fun j hj => absurd hj (Nat.not_lt_zero j), (fun h => by cases h)⟩
            · rw [if_neg hwf]
              by_cases hd : env.disconnected i = true
              · rw [if_pos hd]
                refine ⟨1, rfl, ?_, ?_⟩
                · intro j hj _
                  exact ⟨by omega, rfl⟩
                · intro _
                  refine ⟨le_refl 1, ?_, rfl, rfl, ?_⟩
                  · simpa using hd
                  · simp
              · rw [if_neg hd]
                have hlt : (tf.length - (currentPos + (r.n : Int))).toNat < m := by omega
                obtain ⟨d, h1, h2, h3⟩ := ih _ hlt (currentPos + (r.n : Int)) (i + 1)
                  { chunks := acc.chunks ++
                      [{ offset := currentPos, data := fileBytes tf.content currentPos r.n }],
                    waits := acc.waits + 1, reads := acc.reads + 1, writes := acc.writes + 1,
                    now := acc.now + w.elapsed, reason := acc.reason } rfl
                simp only [List.length_append, List.length_singleton] at h1 h3
                refine ⟨d + 1, by rw [h1]; omega, ?_, ?_⟩
                · intro j hj hdj
                  cases j with
                  | zero => exact absurd hdj hd
                  | succ j' =>
                    have hidx : i + 1 + j' = i + (j' + 1) := by omega
                    obtain ⟨e1, e2⟩ := h2 j' (by omega) (by rw [hidx]; exact hdj)
                    exact ⟨by omega, e2⟩
                · intro hreason
                  obtain ⟨e1, e2, e3, e4, e5⟩ := h3 hreason
                  have hidx : i + 1 + d - 1 = i + (d + 1) - 1 := by omega
                  rw [hidx] at e2
                  exact ⟨by omega, e2, by rw [e3]; omega, by rw [e4]; omega, by rw [e5]; omega⟩
      · rw [if_pos hok]
        exact ⟨0, rfl, fun j hj => absurd hj (Nat.not_lt_zero j), (fun h => by cases h)⟩
    · rw [if_neg hrem]
      exact ⟨0, rfl, fun j hj => absurd hj (Nat.not_lt_zero j), (fun h => by cases h)⟩

/-- Whatever ends the loop of `streamTorrentRange`, the chunks it has appended
are contiguous from the cursor and hold the first `k` bytes from there, for a
`k` that does not exceed the bytes remaining. -/
theorem streamTorrentLoop_prefix (tf : TorrentFile) (env : Client)
    (hcontract : readsWithinRequest env) :
    ∀ (m : Nat) (remaining currentPos : Int) (i : Nat) (acc : StreamOutcome),
      remaining.toNat = m →
      ∃ (cs : List Chunk) (k : Nat),
        (streamTorrentLoop tf env remaining currentPos i acc).chunks = acc.chunks ++ cs ∧
        k ≤ m ∧ contiguousFrom currentPos cs ∧
        (cs.map Chunk.data).flatten = fileBytes tf.content currentPos k := by
  intro m
  induction m using Nat.strong_induction_on with
  | _ m ih =>
    intro remaining currentPos i acc hm
    rw [streamTorrentLoop]
    by_cases hrem : 0 < remaining
    · rw [if_pos hrem]
      simp only []
      generalize htr : (if remaining < bufferSize then remaining else bufferSize) = toRead
      have hbounds : 1 ≤ toRead ∧ toRead ≤ remaining := by
        rw [← htr]
        unfold bufferSize
        split <;> omega
      have hle := hcontract i currentPos toRead hbounds.1
      generalize waitForDataAvailable tf acc.now currentPos toRead = w
      generalize env.read i currentPos toRead = r at hle
      by_cases hok : w.ok = true
      · rw [if_neg (not_not.mpr hok)]
        by_cases herr : r.err = ReadErr.other
        · rw [if_pos herr]
          exact ⟨[], 0, by simp, Nat.zero_le _, trivial, by simp [fileBytes]⟩
        · rw [if_neg herr]
          by_cases hn : r.n = 0
          · rw [if_pos hn]
            exact ⟨[], 0, by simp, Nat.zero_le _, trivial, by simp [fileBytes]⟩
          · rw [if_neg hn]
            by_cases hwf : env.writeFails i = true
            · rw [if_pos hwf]
              refine ⟨[{ offset := currentPos,
                         data := fileBytes tf.content currentPos (min (env.written i) r.n) }],
                min (env.written i) r.n, rfl, by omega, ⟨rfl, trivial⟩, by simp⟩
            · rw [if_neg hwf]
              by_cases hd : env.disconnected i = true
              · rw [if_pos hd]
                refine ⟨[{ offset := currentPos, data := fileBytes tf.content currentPos r.n }],
                  r.n, rfl, by omega, ⟨rfl, trivial⟩, by simp⟩
              · rw [if_neg hd]
                have hlt : (remaining - (r.n : Int)).toNat < m := by omega
                obtain ⟨cs, k, h1, h2, h3, h4⟩ := ih _ hlt (remaining - (r.n : Int))
                  (currentPos + (r.n : Int)) (i + 1)
                  { chunks := acc.chunks ++
                      [{ offset := currentPos, data := fileBytes tf.content currentPos r.n }],
                    waits := acc.waits + 1, reads := acc.reads + 1, writes := acc.writes + 1,
                    now := acc.now + w.elapsed, reason := acc.reason } rfl
                refine ⟨{ offset := currentPos, data := fileBytes tf.content currentPos r.n } :: cs,
                  r.n + k, ?_, by omega, ?_, ?_⟩
                · rw [h1]; simp
                · refine ⟨rfl, ?_⟩
                  simp only [fileBytes_length]
                  exact h3
                · simp only [List.map_cons, List.flatten_cons, h4]
                  rw [fileBytes_add]
      · rw [if_pos hok]
        exact ⟨[], 0, by simp, Nat.zero_le _, trivial, by simp [fileBytes]⟩
    · rw [if_neg hrem]
      exact ⟨[], 0, by simp, Nat.zero_le _, trivial, by simp [fileBytes]⟩

/-- C12: in `streamTorrentRange` and `streamTorrentFile`, when an iteration has
written its chunk and the disconnect signal is set at the check that follows,
the loop ends there, whatever remains to be sent: the outcome is what was done
before plus that one wait, read, write and chunk, with the normal ending
`disconnected`. So in every run a signal set after the `j`-th write makes that
write the last one, and a run ended by the signal has made as many waits and
reads as writes. -/
theorem disconnect_check_ends_stream (tf : TorrentFile) (env : Client) :
    (∀ (remaining currentPos : Int) (i : Nat) (acc : StreamOutcome),
      0 < remaining →
      (waitForDataAvailable tf acc.now currentPos
        (if remaining < bufferSize then remaining else bufferSize)).ok = true →
      (env.read i currentPos (if remaining < bufferSize then remaining else bufferSize)).err
        ≠ ReadErr.other →
      (env.read i currentPos (if remaining < bufferSize then remaining else bufferSize)).n ≠ 0 →
      env.writeFails i = false →
      env.disconnected i = true →
      streamTorrentLoop tf env remaining currentPos i acc =
        { chunks := acc.chunks ++
            [{ offset := currentPos,
               data := fileBytes tf.content currentPos
                 (env.read i currentPos
                   (if remaining < bufferSize then remaining else bufferSize)).n }],
          waits := acc.waits + 1, reads := acc.reads + 1, writes := acc.writes + 1,
          now := acc.now + (waitForDataAvailable tf acc.now currentPos
            (if remaining < bufferSize then remaining else bufferSize)).elapsed,
          reason := StopReason.disconnected }) ∧
    (∀ (currentPos : Int) (i : Nat) (acc : StreamOutcome),
      currentPos < tf.length →
      (waitForDataAvailable tf acc.now currentPos
        (if tf.length - currentPos < bufferSize then tf.length - currentPos
          else bufferSize)).ok = true →
      (env.read i currentPos
        (if tf.length - currentPos < bufferSize then tf.length - currentPos
          else bufferSize)).err ≠ ReadErr.other →
      (env.read i currentPos
        (if tf.length - currentPos < bufferSize then tf.length - currentPos
          else bufferSize)).n ≠ 0 →
      env.writeFails i = false →
      env.disconnected i = true →
      streamTorrentFileLoop tf env currentPos i acc =
        { chunks := acc.chunks ++
            [{ offset := currentPos,
               data := fileBytes tf.content currentPos
                 (env.read i currentPos
                   (if tf.length - currentPos < bufferSize then tf.length - currentPos
                     else bufferSize)).n }],
          waits := acc.waits + 1, reads := acc.reads + 1, writes := acc.writes + 1,
          now := acc.now + (waitForDataAvailable tf acc.now currentPos
            (if tf.length - currentPos < bufferSize then tf.length - currentPos
              else bufferSize)).elapsed,
          reason := StopReason.disconnected }) ∧
    (∀ (now : Nat) (start contentLength : Int) (j : Nat),
      j < (streamTorrentRange tf env now start contentLength).writes →
      env.disconnected j = true →
      j + 1 = (streamTorrentRange tf env now start contentLength).writes ∧
      (streamTorrentRange tf env now start contentLength).reason = StopReason.disconnected ∧
      (streamTorrentRange tf env now start contentLength).waits = j + 1 ∧
      (streamTorrentRange tf env now start contentLength).reads = j + 1 ∧
      (streamTorrentRange tf env now start contentLength).chunks.length = j + 1) ∧
    (∀ (now : Nat) (j : Nat),
      j < (streamTorrentFile tf env now).writes →
      env.disconnected j = true →
      j + 1 = (streamTorrentFile tf env now).writes ∧
      (streamTorrentFile tf env now).reason = StopReason.disconnected ∧
      (streamTorrentFile tf env now).waits = j + 1 ∧
      (streamTorrentFile tf env now).reads = j + 1 ∧
      (streamTorrentFile tf env now).chunks.length = j + 1) := by
  refine ⟨?_, ?_, ?_, ?_⟩
  · intro remaining currentPos i acc hrem hok herr hn hwf hd
    rw [streamTorrentLoop, if_pos hrem]
    simp only []
    rw [if_neg (not_not.mpr hok), if_neg herr, if_neg hn, if_neg (by rw [hwf]; simp), if_pos hd]
  · intro currentPos i acc hrem hok herr hn hwf hd
    rw [streamTorrentFileLoop, if_pos hrem]
    simp only []
    rw [if_neg (not_not.mpr hok), if_neg herr, if_neg hn, if_neg (by rw [hwf]; simp), if_pos hd]
  · intro now start contentLength j hj hdj
    obtain ⟨d, h1, h2, h3, _⟩ := streamTorrentLoop_run tf env contentLength.toNat contentLength
      start 0
      { chunks := [], waits := 0, reads := 0, writes := 0, now := now,
        reason := StopReason.completed } rfl
    unfold streamTorrentRange at hj ⊢
    simp only [Nat.zero_add, List.length_nil] at h1 h2 h3
    rw [h1] at hj ⊢
    obtain ⟨e1, e2⟩ := h2 j hj hdj
    obtain ⟨_, _, e3, e4, e5⟩ := h3 e2
    exact ⟨e1, e2, by rw [e3]; omega, by rw [e4]; omega, by rw [e5]; omega⟩
  · intro now j hj hdj
    obtain ⟨d, h1, h2, h3⟩ := streamTorrentFileLoop_run tf env (tf.length - 0).toNat 0 0
      { chunks := [], waits := 0, reads := 0, writes := 0, now := now,
        reason := StopReason.completed } rfl
    unfold streamTorrentFile at hj ⊢
    simp only [Nat.zero_add, List.length_nil] at h1 h2 h3
    rw [h1] at hj ⊢
    obtain ⟨e1, e2⟩ := h2 j hj hdj
    obtain ⟨_, _, e3, e4, e5⟩ := h3 e2
    exact ⟨e1, e2, by rw [e3]; omega, by rw [e4]; omega, by rw [e5]; omega⟩

theorem disconnect_check_ends_stream_witness :
    (streamTorrentRange completeFile leavingClient 0 0 100000).reason = StopReason.disconnected ∧
    (streamTorrentRange completeFile leavingClient 0 0 100000).writes = 1 ∧
    (streamTorrentRange completeFile leavingClient 0 0 100000).waits = 1 ∧
    (streamTorrentRange completeFile leavingClient 0 0 100000).reads = 1 ∧
    (streamTorrentFile completeFile leavingClient 0).reason = StopReason.disconnected ∧
    (streamTorrentFile completeFile leavingClient 0).writes = 1 :=
  have h1 := (disconnect_check_ends_stream completeFile leavingClient).1 100000 0 0
    { chunks := [], waits := 0, reads := 0, writes := 0, now := 0,
      reason := StopReason.completed }
    (by decide) (wait_ok_of_all_complete completeFile (fun _ _ => rfl) _ _ _)
    (by decide) (by decide) rfl rfl
  have h2 := (disconnect_check_ends_stream completeFile leavingClient).2.1 0 0
    { chunks := [], waits := 0, reads := 0, writes := 0, now := 0,
      reason := StopReason.completed }
    (by decide) (wait_ok_of_all_complete completeFile (fun _ _ => rfl) _ _ _)
    (by decide) (by decide) rfl rfl
  ⟨congrArg StreamOutcome.reason h1, congrArg StreamOutcome.writes h1,
   congrArg StreamOutcome.waits h1, congrArg StreamOutcome.reads h1,
   congrArg StreamOutcome.reason h2, congrArg StreamOutcome.writes h2⟩

theorem steadyClient_readsWithinRequest : readsWithinRequest steadyClient := by
  intro i pos want hw
  show ((want.toNat : Nat) : Int) ≤ want
  omega

/-- A piece of the requested span below `NumPieces()` that is never complete
makes the wait fail. -/
theorem wait_fails_of_incomplete_piece (tf : TorrentFile) (now : Nat) (position length : Int)
    (hpl : 0 < tf.torrent.pieceLength) (hpos : 0 ≤ position) (hlen : 1 ≤ length)
    (k : Int) (hk1 : position / tf.torrent.pieceLength ≤ k)
    (hk2 : k ≤ (position + length - 1) / tf.torrent.pieceLength)
    (hk3 : k < tf.torrent.numPieces) (hnever : ∀ time, tf.torrent.complete time k = false) :
    (waitForDataAvailable tf now position length).ok = false := by
  have hs : Int.tdiv position tf.torrent.pieceLength = position / tf.torrent.pieceLength :=
    Int.tdiv_eq_ediv hpos (by omega)
  have he : Int.tdiv (position + length - 1) tf.torrent.pieceLength
      = (position + length - 1) / tf.torrent.pieceLength :=
    Int.tdiv_eq_ediv (by omega) (by omega)
  have hscan : ∀ time, ∃ p, scanPieces tf.torrent time
      ((position + length - 1) / tf.torrent.pieceLength - position / tf.torrent.pieceLength
        + 1).toNat (position / tf.torrent.pieceLength) = some p := by
    intro time
    exact scanPieces_isSome tf.torrent time _ _ k hk1 (by omega) hk3 (hnever time)
  unfold waitForDataAvailable
  simp only [hs, he]
  exact (waitLoop_never_complete tf.torrent now _ _ hscan 60
    { ok := false, polls := 0, sleeps := 0, prioritized := [], elapsed := 0 } (by decide)
    (by decide)).1

/-- With no piece ever complete, the wait for the first buffer of a stream over
the stalled file fails. -/
theorem stalledFile_wait_fails (now : Nat) :
    (waitForDataAvailable stalledFile now 0
      (if (100000 : Int) < bufferSize then 100000 else bufferSize)).ok = false :=
  wait_fails_of_incomplete_piece stalledFile now 0 _ (by decide) (by decide) (by decide) 0
    (by decide) (by decide) (by decide) (fun _ => rfl)

/-- C13: in every run of `streamTorrentRange` over `contentLength` bytes from
`start`, with reads that respect the `io.Reader` count contract, the bytes
written are the file bytes `[start, start+k)` for some `k ≤ contentLength`, in
contiguous chunks, whatever ended the loop. When an availability wait fails the
loop ends there: the outcome is what was done before plus that one wait, with no
further read or write and the chunks already written unchanged; a run ended by
a failed wait has made one wait more than reads and writes. -/
theorem stream_sends_prefix_of_range (tf : TorrentFile) (env : Client)
    (hcontract : readsWithinRequest env) :
    (∀ (now : Nat) (start contentLength : Int),
      ∃ k : Nat, k ≤ contentLength.toNat ∧
        ((streamTorrentRange tf env now start contentLength).chunks.map Chunk.data).flatten
          = fileBytes tf.content start k ∧
        contiguousFrom start (streamTorrentRange tf env now start contentLength).chunks) ∧
    (∀ (remaining currentPos : Int) (i : Nat) (acc : StreamOutcome),
      0 < remaining →
      (waitForDataAvailable tf acc.now currentPos
        (if remaining < bufferSize then remaining else bufferSize)).ok = false →
      streamTorrentLoop tf env remaining currentPos i acc =
        { chunks := acc.chunks, waits := acc.waits + 1, reads := acc.reads,
          writes := acc.writes,
          now := acc.now + (waitForDataAvailable tf acc.now currentPos
            (if remaining < bufferSize then remaining else bufferSize)).elapsed,
          reason := StopReason.waitTimeout }) ∧
    (∀ (now : Nat) (start contentLength : Int),
      (streamTorrentRange tf env now start contentLength).reason = StopReason.waitTimeout →
      (streamTorrentRange tf env now start contentLength).waits
        = (streamTorrentRange tf env now start contentLength).writes + 1 ∧
      (streamTorrentRange tf env now start contentLength).reads
        = (streamTorrentRange tf env now start contentLength).writes ∧
      (streamTorrentRange tf env now start contentLength).chunks.length
        = (streamTorrentRange tf env now start contentLength).writes) := by
  refine ⟨?_, ?_, ?_⟩
  · intro now start contentLength
    obtain ⟨cs, k, h1, h2, h3, h4⟩ := streamTorrentLoop_prefix tf env hcontract
      contentLength.toNat contentLength start 0
      { chunks := [], waits := 0, reads := 0, writes := 0, now := now,
        reason := StopReason.completed } rfl
    unfold streamTorrentRange
    rw [h1]
    simp only [List.nil_append]
    exact ⟨k, h2, h4, h3⟩
  · intro remaining currentPos i acc hrem hfail
    rw [streamTorrentLoop, if_pos hrem]
    simp only []
    rw [if_pos (by rw [hfail]; simp)]
  · intro now start contentLength hreason
    obtain ⟨d, h1, _, _, h4⟩ := streamTorrentLoop_run tf env contentLength.toNat contentLength
      start 0
      { chunks := [], waits := 0, reads := 0, writes := 0, now := now,
        reason := StopReason.completed } rfl
    unfold streamTorrentRange at hreason ⊢
    simp only [Nat.zero_add, List.length_nil] at h1 h4
    obtain ⟨e1, e2, e3⟩ := h4 hreason
    exact ⟨by rw [e1, h1], by rw [e2, h1], by rw [e3, h1]⟩

theorem stream_sends_prefix_of_range_witness :
    (∃ k : Nat, k ≤ (100000 : Int).toNat ∧
      ((streamTorrentRange completeFile steadyClient 0 500 100000).chunks.map Chunk.data).flatten
        = fileBytes completeFile.content 500 k ∧
      contiguousFrom 500 (streamTorrentRange completeFile steadyClient 0 500 100000).chunks) ∧
    (streamTorrentRange stalledFile steadyClient 0 0 100000).reason = StopReason.waitTimeout ∧
    (streamTorrentRange stalledFile steadyClient 0 0 100000).chunks = [] ∧
    (streamTorrentRange stalledFile steadyClient 0 0 100000).reads = 0 ∧
    (streamTorrentRange stalledFile steadyClient 0 0 100000).writes = 0 ∧
    (streamTorrentRange stalledFile steadyClient 0 0 100000).waits = 1 :=
  have h1 := (stream_sends_prefix_of_range completeFile steadyClient
    steadyClient_readsWithinRequest).1 0 500 100000
  have h2 := (stream_sends_prefix_of_range stalledFile steadyClient
    steadyClient_readsWithinRequest).2.1 100000 0 0
    { chunks := [], waits := 0, reads := 0, writes := 0, now := 0,
      reason := StopReason.completed }
    (by decide) (stalledFile_wait_fails 0)
  ⟨h1, congrArg StreamOutcome.reason h2, congrArg StreamOutcome.chunks h2,
   congrArg StreamOutcome.reads h2, congrArg StreamOutcome.writes h2,
   congrArg StreamOutcome.waits h2⟩

end Magnetorrenter
